import Mathlib

/-! # go-on/app: routing core

A shallow embedding of `app.go` (Dispatcher, content negotiation, HTML
servers, route listings, Main router), `admin/admin.go` (the authorization
gate) and the protected file server of `files/files.go`, with the properties
of the routing core stated and proved over it.

Modelling conventions

* A Go `string` is a `Str`, the list of its characters.  All delimiters the
  code looks for (`/`, `,`, `;`) are single ASCII characters, so slicing at
  their positions agrees with Go's byte offsets.
* A Go `map[string]T` is a `GoMap T`: an association list read with `get?`
  (the two-value index expression `v, has := m[k]`) and written with `set`
  (`m[k] = v`).  Iteration order is not used by any property.  Maps are
  initialised, as `NewDispatcher` and `New` leave them.
* A `panic` is made explicit: functions that can panic return the state they
  leave behind together with the panic value.
* Calls a function makes on its collaborators (the response writer, a
  handler, a callback) are recorded, in order, as a list of call events.
-/

namespace GoApp

/-! ## Strings -/

/-- A Go string, as the list of its characters. -/
abbrev Str := List Char

/-- Go `strings.Split(s, sep)` for a one-character separator: the
pieces of `s` between the separators; never empty. -/
def Split (s : Str) (sep : Char) : List Str :=
  match s with
  | [] => [[]]
  | c :: cs =>
    if c = sep then [] :: Split cs sep
    else
      match Split cs sep with
      | [] => [[c]]
      | x :: xs => (c :: x) :: xs

/-- Go `unicode.IsSpace`: the Latin-1 spaces and the Unicode White_Space
code points above Latin-1. -/
def IsSpace (c : Char) : Bool :=
  let n := c.toNat
  (0x09 ≤ n && n ≤ 0x0d) || n == 0x20 || n == 0x85 || n == 0xa0 || n == 0x1680 ||
  (0x2000 ≤ n && n ≤ 0x200a) || n == 0x2028 || n == 0x2029 || n == 0x202f ||
  n == 0x205f || n == 0x3000

/-- Go `strings.TrimSpace`: leading and trailing white space removed. -/
def TrimSpace (s : Str) : Str :=
  ((s.dropWhile IsSpace).reverse.dropWhile IsSpace).reverse

/-- Scan for `strings.Index`: `i` is the offset of `s` in the whole string. -/
def IndexFrom (substr : Str) (s : Str) (i : Int) : Int :=
  match s with
  | [] => if substr = [] then i else -1
  | c :: cs => if substr.isPrefixOf (c :: cs) then i else IndexFrom substr cs (i + 1)

/-- Go `strings.Index(s, substr)`: offset of the first occurrence of
`substr` in `s`, or `-1`. -/
def Index (s substr : Str) : Int := IndexFrom substr s 0

/-- A panic value. -/
inductive Panic where
  /-- `Dispatcher.Add`: "can't add server ... path is reserved". -/
  | pathReserved (table : Str) (path : Str)
  /-- `Main.Add`: "can't register app ... mountpoint has already been reserved". -/
  | mountReserved (path : Str)
  /-- `panic("...")` with a literal message. -/
  | text (msg : Str)
  /-- Run-time error: slice bounds out of range. -/
  | sliceOutOfRange
  /-- Run-time error: invalid memory address or nil pointer dereference. -/
  | nilDereference
  deriving DecidableEq, Repr

/-- Go slice expression `s[i:]`; out of range when `i > len(s)`. -/
def sliceFrom (s : Str) (i : Int) : Except Panic Str :=
  if 0 ≤ i ∧ i ≤ s.length then .ok (s.drop i.toNat) else .error .sliceOutOfRange

/-- Go slice expression `s[i:j]`; out of range unless `0 ≤ i ≤ j ≤ len(s)`. -/
def slice (s : Str) (i j : Int) : Except Panic Str :=
  if 0 ≤ i ∧ i ≤ j ∧ j ≤ s.length then .ok ((s.take j.toNat).drop i.toNat)
  else .error .sliceOutOfRange

/-! ## Maps -/

/-- A Go `map[string]β`. -/
abbrev GoMap (β : Type) := List (Str × β)

/-- Index expression `v, has := m[k]`. -/
def GoMap.get? {β : Type} (m : GoMap β) (k : Str) : Option β :=
  match m with
  | [] => none
  | (k', v) :: rest => if k' = k then some v else GoMap.get? rest k

/-- Assignment `m[k] = v`. -/
def GoMap.set {β : Type} (m : GoMap β) (k : Str) (v : β) : GoMap β :=
  (k, v) :: m.filter (fun e => !decide (e.1 = k))

/-- The keys a `range` over the map visits. -/
def GoMap.keys {β : Type} (m : GoMap β) : List Str := m.map Prod.fst

/-- Result of running a registration function: it returned, or it panicked;
either way `st` is the state it left behind. -/
inductive Exec (σ : Type) where
  | done (st : σ)
  | panicked (st : σ) (p : Panic)

/-- Whether the run panicked. -/
def Exec.isPanic {σ : Type} : Exec σ → Bool
  | .done _ => false
  | .panicked _ _ => true

/-- The state left behind. -/
def Exec.state {σ : Type} : Exec σ → σ
  | .done st => st
  | .panicked st _ => st

/-! ## Methods, requests, servers -/

/-- Go `type method string`. -/
abbrev method := Str

def GET : method := "GET".toList
def POST : method := "POST".toList
def PUT : method := "PUT".toList
def PATCH : method := "PATCH".toList
def DELETE : method := "DELETE".toList

/-- Go `type Status int`. -/
abbrev Status := Int

/-- Go `type MountPath string`. -/
abbrev MountPath := Str

/-- Go `type ContentType string`. -/
abbrev ContentType := Str

/-- Go `error` values (non-nil), by their message. -/
abbrev Error := Str

/-- The parts of an `*http.Request` the routing core reads: `r.Method`,
`r.URL.Path` and `r.Header.Get("Accept")`. -/
structure Request where
  Method : Str
  Path : Str
  Accept : Str
  deriving DecidableEq, Repr

/-- Go `func Method(r *http.Request) method`. -/
def Method (r : Request) : method :=
  if r.Method = GET then GET
  else if r.Method = POST then POST
  else if r.Method = PUT then PUT
  else if r.Method = PATCH then PATCH
  else if r.Method = DELETE then DELETE
  else GET

/-- Go `type EndPath struct`. -/
structure EndPath where
  Method : method
  Path : Str
  deriving DecidableEq, Repr

/-- Go `func (c ContentType) Mime() string`: `strings.Split(c, ";")[0]`. -/
def ContentType.Mime (c : ContentType) : Str :=
  match Split c ';' with
  | [] => []
  | x :: _ => x

/-- An `io.Writer`, by the error its `Write` returns for a chunk. -/
abbrev Writer := Str → Option Error

/-- An `io.WriterTo`: given the writer, the chunks it writes to it, in
order, and the error it returns. -/
abbrev WriterTo := Writer → List Str × Option Error

/-- Go `type Server interface`. -/
structure Server where
  ContentType : ContentType
  Serve : Request → Status × WriterTo × Option Error

/-- An `http.Handler` collaborator whose behaviour lies outside the routing
core; only its identity is kept. -/
structure Handler where
  id : Nat
  deriving DecidableEq, Repr

/-- Bytes handed to `wr.Write`. -/
inductive Payload where
  /-- A byte string. -/
  | bytes (b : Str)
  /-- The result of `fmt.Sprintf(format, arg)`. -/
  | sprintf (format : Str) (arg : Str)
  deriving DecidableEq, Repr

/-- Calls `Dispatcher.ServeHTTP` makes, in order. -/
inductive DCall where
  /-- `wr.Header().Set(key, value)`. -/
  | headerSet (key value : Str)
  /-- `wr.WriteHeader(code)`. -/
  | writeHeader (code : Int)
  /-- `wr.Write(b)`, by `ServeHTTP` itself or by the body-writer. -/
  | write (b : Payload)
  /-- `s.Serve(r)`. -/
  | serve (s : Server) (r : Request)
  /-- `d.ErrorHandler(r, err)`. -/
  | errorHandler (r : Request) (err : Error)
  /-- `d.NotFound.ServeHTTP(wr, r)`. -/
  | notFound (h : Handler) (r : Request)
  /-- `http.NotFound(wr, r)`. -/
  | httpNotFound (r : Request)

/-- Go `type Dispatcher struct`.  `ErrorHandler` keeps whether the callback
is set; its invocations are recorded as `DCall.errorHandler`. -/
structure Dispatcher where
  get : GoMap Server
  post : GoMap Server
  put : GoMap Server
  del : GoMap Server
  patch : GoMap Server
  NotFound : Option Handler
  ErrorHandler : Bool

/-- Go `func NewDispatcher() *Dispatcher`. -/
def NewDispatcher : Dispatcher :=
  { get := [], post := [], put := [], del := [], patch := [],
    NotFound := none, ErrorHandler := false }

/-- Go `func (d *Dispatcher) Override(m method, path string, s Server)`. -/
def Dispatcher.Override (d : Dispatcher) (m : method) (path : Str) (s : Server) : Dispatcher :=
  let path := if path = [] then "/".toList else path
  if m = GET then { d with get := d.get.set path s }
  else if m = POST then { d with post := d.post.set path s }
  else if m = PUT then { d with put := d.put.set path s }
  else if m = DELETE then { d with del := d.del.set path s }
  else if m = PATCH then { d with patch := d.patch.set path s }
  else { d with get := d.get.set path s }

/-- Go `func (d *Dispatcher) Add(m method, path string, s Server)`. -/
def Dispatcher.Add (d : Dispatcher) (m : method) (path : Str) (s : Server) : Exec Dispatcher :=
  let path := if path = [] then "/".toList else path
  if m = GET then
    match d.get.get? path with
    | some _ => .panicked d (.pathReserved GET path)
    | none => .done { d with get := d.get.set path s }
  else if m = POST then
    match d.post.get? path with
    | some _ => .panicked d (.pathReserved POST path)
    | none => .done { d with post := d.post.set path s }
  else if m = PUT then
    match d.put.get? path with
    | some _ => .panicked d (.pathReserved PUT path)
    | none => .done { d with put := d.put.set path s }
  else if m = DELETE then
    match d.del.get? path with
    | some _ => .panicked d (.pathReserved DELETE path)
    | none => .done { d with del := d.del.set path s }
  else if m = PATCH then
    match d.patch.get? path with
    | some _ => .panicked d (.pathReserved PATCH path)
    | none => .done { d with patch := d.patch.set path s }
  else
    match d.get.get? path with
    | some _ => .panicked d (.pathReserved GET path)
    | none => .done { d with get := d.get.set path s }

/-- Go `func isContentAccepted(c ContentType, r *http.Request) bool`. -/
def isContentAccepted (c : ContentType) (r : Request) : Bool :=
  let ctype := c.Mime
  let hd := r.Accept
  if hd = [] then true
  else
    let acc := Split hd ','
    acc.any fun a =>
      let x := Split (TrimSpace a) ';'
      match x with
      | [] => false
      | x0 :: _ => decide (x0 = "*/*".toList) || decide (x0 = ctype)

/-- The `switch Method(r)` of `Dispatcher.ServeHTTP`: the route table the
request is looked up in. -/
def Dispatcher.table (d : Dispatcher) (m : method) : GoMap Server :=
  if m = GET then d.get
  else if m = POST then d.post
  else if m = PUT then d.put
  else if m = DELETE then d.del
  else if m = PATCH then d.patch
  else d.get

/-- `http.StatusExpectationFailed`. -/
def StatusExpectationFailed : Int := 417

/-- `http.StatusForbidden`. -/
def StatusForbidden : Int := 403

/-- The error-callback call `if err != nil && d.ErrorHandler != nil`. -/
def Dispatcher.report (d : Dispatcher) (r : Request) (err : Option Error) : List DCall :=
  match err with
  | some e => if d.ErrorHandler then [.errorHandler r e] else []
  | none => []

/-- The branch `if s, has := m[r.URL.Path]; has` of `Dispatcher.ServeHTTP`. -/
def Dispatcher.serveFound (d : Dispatcher) (s : Server) (wr : Writer) (r : Request) :
    List DCall :=
  if !isContentAccepted s.ContentType r then
    [.writeHeader StatusExpectationFailed,
     .write (.sprintf "content-type %#v not accepted by client".toList s.ContentType.Mime)]
  else
    let (status, writeTo, err) := s.Serve r
    let out := writeTo wr
    [.serve s r] ++ d.report r err ++ [.headerSet "Content-Type".toList s.ContentType] ++
      (if status ≠ 0 then [.writeHeader status] else []) ++
      out.1.map (fun b => .write (.bytes b)) ++ d.report r out.2

/-- The tail of `Dispatcher.ServeHTTP`: no route matched. -/
def Dispatcher.serveNotFound (d : Dispatcher) (r : Request) : List DCall :=
  match d.NotFound with
  | some h => [.notFound h r]
  | none => [.httpNotFound r]

/-- Go `func (d *Dispatcher) ServeHTTP(wr http.ResponseWriter, r *http.Request)`. -/
def Dispatcher.ServeHTTP (d : Dispatcher) (wr : Writer) (r : Request) : List DCall :=
  let m := d.table (Method r)
  match m.get? r.Path with
  | some s => d.serveFound s wr r
  | none => d.serveNotFound r

/-! ## Main router -/

/-- Go `type App interface`: an `http.Handler` with a `MountPath()`. -/
structure App where
  MountPath : MountPath
  handler : Handler
  deriving DecidableEq, Repr

/-- Go `type Main struct`. -/
structure Main where
  mountPaths : GoMap App
  NotFound : Option Handler

/-- Go `func New() *Main`. -/
def New : Main := { mountPaths := [], NotFound := none }

/-- Go `func (m *Main) Override(apps ...App)`. -/
def Main.Override (m : Main) (apps : List App) : Main :=
  match apps with
  | [] => m
  | a :: rest =>
    Main.Override { m with mountPaths := m.mountPaths.set a.MountPath a } rest

/-- Go `func (m *Main) Add(apps ...App) *Main`: the loop registers the
applications in order and panics at the first occupied mount path. -/
def Main.Add (m : Main) (apps : List App) : Exec Main :=
  match apps with
  | [] => .done m
  | a :: rest =>
    let path := a.MountPath
    match m.mountPaths.get? path with
    | some _ => .panicked m (.mountReserved path)
    | none => Main.Add { m with mountPaths := m.mountPaths.set path a } rest

/-- Go `const fallbackPath = MountPath("")`. -/
def fallbackPath : MountPath := []

/-- Go `func (m *Main) getApp(r *http.Request) App`: the application
selected (`none` for a nil `App`) and the request with its path as `getApp`
leaves it. -/
def Main.getApp (m : Main) (r : Request) : Except Panic (Option App × Request) := do
  let tail ← sliceFrom r.Path 1
  let idx := Index tail "/".toList
  if idx = -1 then
    return (m.mountPaths.get? fallbackPath, r)
  let path ← slice r.Path 1 (idx + 1)
  match m.mountPaths.get? path with
  | some a =>
    let rel ← sliceFrom r.Path (idx + 1)
    return (some a, { r with Path := rel })
  | none => return (m.mountPaths.get? fallbackPath, r)

/-- Calls `Main.ServeHTTP` makes. -/
inductive MCall where
  /-- `m.NotFound.ServeHTTP(rw, r)`. -/
  | notFound (h : Handler) (r : Request)
  /-- `http.NotFound(rw, r)`. -/
  | httpNotFound (r : Request)
  /-- `app.ServeHTTP(rw, r)`. -/
  | appServe (a : App) (r : Request)
  deriving DecidableEq, Repr

/-- Go `func (m *Main) ServeHTTP(rw http.ResponseWriter, r *http.Request)`. -/
def Main.ServeHTTP (m : Main) (r : Request) : Except Panic (List MCall) := do
  let (app, r) ← m.getApp r
  match app with
  | none =>
    match m.NotFound with
    | some h => return [.notFound h r]
    | none => return [.httpNotFound r]
  | some a => return [.appServe a r]

/-! ## Identity and the authorization gate -/

/-- Go `type Authorizer interface`. -/
structure Authorizer where
  Authorize : EndPath → Str → Bool

/-- Go `type User struct`. -/
structure User where
  ID : Str
  EMail : Str
  Alias : Str
  Name : Str
  Authorizer : Option Authorizer

/-- Go `type Authenticator interface`; `none` is a nil `*User`. -/
structure Authenticator where
  Authenticate : Request → Option User

/-- Calls a gate makes, in order. -/
inductive GCall where
  /-- `Authenticate(r)` on the gate's authenticator. -/
  | authenticate (r : Request)
  /-- `u.Authorizer.Authorize(path, userID)`. -/
  | authorize (path : EndPath) (userID : Str)
  /-- `rw.WriteHeader(code)`. -/
  | writeHeader (code : Int)
  /-- `ServeHTTP(rw, r)` on the wrapped dispatcher or file server. -/
  | forward (r : Request)
  deriving DecidableEq, Repr

/-- Go `func (u *User) Authorize(path EndPath) bool`: the calls made and
the result, or the panic. -/
def User.Authorize (u : Option User) (path : EndPath) : List GCall × Except Panic Bool :=
  match u with
  | none => ([], .error (.text "user not set".toList))
  | some u =>
    if u.ID = [] then ([], .error (.text "ID not set".toList))
    else
      match u.Authorizer with
      | none => ([], .error (.text "Authorizer not set".toList))
      | some az => ([.authorize path u.ID], .ok (az.Authorize path u.ID))

/-- Go `type Admin struct` of package `admin`. -/
structure Admin where
  user : Option User
  Authenticator : Option Authenticator
  Authorizer : Option Authorizer
  Dispatcher : Dispatcher

/-- A run of a gate's `ServeHTTP`: the calls made, in order, and the panic
that ended it, if any. -/
structure GateRun where
  calls : List GCall
  panic : Option Panic

/-- Go `func (a *Admin) ServeHTTP(rw http.ResponseWriter, r *http.Request)`:
the gate as it is left (its `user` field is assigned) and the run. -/
def Admin.ServeHTTP (a : Admin) (r : Request) : Admin × GateRun :=
  match a.Authenticator with
  | none => (a, ⟨[], some (.text "no authenticator set".toList)⟩)
  | some an =>
    match a.Authorizer with
    | none => (a, ⟨[], some (.text "no authorizer set".toList)⟩)
    | some az =>
      match an.Authenticate r with
      | none => (a, ⟨[.authenticate r, .writeHeader StatusForbidden], none⟩)
      | some user =>
        let user := { user with Authorizer := some az }
        let a := { a with user := some user }
        let path : EndPath := ⟨Method r, r.Path⟩
        match User.Authorize a.user path with
        | (cs, .error p) => (a, ⟨[.authenticate r] ++ cs, some p⟩)
        | (cs, .ok false) =>
          (a, ⟨[.authenticate r] ++ cs ++ [.writeHeader StatusForbidden], none⟩)
        | (cs, .ok true) => (a, ⟨[.authenticate r] ++ cs ++ [.forward r], none⟩)

/-! ## HTML servers -/

/-- Go `type HTMLer interface`: a value with an `HTML()` text; `WriterTo` is
the value's own `io.WriterTo`, when its type also implements that interface. -/
structure HTMLer where
  HTML : Str
  WriterTo : Option WriterTo

/-- Go `type HTMLServer func(r *http.Request) (s Status, html HTMLer, err error)`;
`none` is a nil `HTMLer`. -/
abbrev HTMLServer := Request → Status × Option HTMLer × Option Error

/-- The closure `func(wr io.Writer) { _, e = wr.Write([]byte(text)); return }`. -/
def writeText (text : Str) : WriterTo := fun wr => ([text], wr text)

/-- Go `func (h HTMLServer) Serve(r *http.Request) (s Status, w io.WriterTo, err error)`. -/
def HTMLServer.Serve (h : HTMLServer) (r : Request) : Status × WriterTo × Option Error :=
  let (s, ht, err) := h r
  match ht with
  | none => (s, writeText "Page not found".toList, err)
  | some ht =>
    match ht.WriterTo with
    | some w => (s, fun wr => w wr, err)
    | none =>
      let data := ht.HTML
      if data = [] then (s, writeText "Page not found".toList, err)
      else (s, writeText data, err)

/-- Go `func (h HTMLServer) ContentType() ContentType`. -/
def HTMLServer.ContentType (_h : HTMLServer) : ContentType :=
  "text/html; charset=utf-8".toList

/-- An `HTMLServer` as a `Server`. -/
def HTMLServer.toServer (h : HTMLServer) : Server :=
  { ContentType := HTMLServer.ContentType h, Serve := HTMLServer.Serve h }

/-! ## Route listings -/

/-- One path element pushed on the elements kept so far (last kept element
first) by `filepath.Clean`: empty and `.` elements are dropped, `..` removes
the last kept element if there is one that is not `..`, is dropped at the
root, and is kept otherwise. -/
def cleanStep (rooted : Bool) (kept : List Str) (elem : Str) : List Str :=
  if elem = [] ∨ elem = ".".toList then kept
  else if elem = "..".toList then
    match kept with
    | [] => if rooted then [] else ["..".toList]
    | top :: rest =>
      if top = "..".toList then (if rooted then kept else "..".toList :: kept) else rest
  else elem :: kept

/-- Go `filepath.Clean` with `/` as separator, as the library documents it:
the shortest path equivalent to `path` by lexical processing. -/
def filepathClean (path : Str) : Str :=
  if path = [] then ".".toList
  else
    let rooted := decide (path.head? = some '/')
    let kept := (Split path '/').foldl (cleanStep rooted) []
    let out := (if rooted then "/".toList else []) ++ List.intercalate "/".toList kept.reverse
    if out = [] then ".".toList else out

/-- Go `filepath.Join`: the elements from the first non-empty one on, joined
with `/` and cleaned; the empty string when all elements are empty. -/
def filepathJoin (elem : List Str) : Str :=
  match elem.dropWhile (fun e => decide (e = [])) with
  | [] => []
  | es => filepathClean (List.intercalate "/".toList es)

/-- Go `func (d *Dispatcher) GETRoutes(mp MountPath) (rt []string)`. -/
def Dispatcher.GETRoutes (d : Dispatcher) (mp : MountPath) : List Str :=
  let pre := if mp = [] then [] else "/".toList
  d.get.keys.map (fun r => pre ++ filepathJoin [mp, r])

/-! ## The protected file server -/

/-- Go `type Files struct` of package `files`. -/
structure Files where
  mountPath : MountPath
  fsDir : Str
  fileServer : Handler

/-- Go `type protected struct` of package `files`. -/
structure Protected where
  Files : Files
  authorizer : Option Authorizer
  authenticator : Option Authenticator

/-- Go `func (p *Files) Protected(authorizer, authenticator) app.App`. -/
def Files.Protected (p : Files) (authorizer : Option Authorizer)
    (authenticator : Option Authenticator) : Protected :=
  { Files := p, authorizer := authorizer, authenticator := authenticator }

/-- Go `func (a *protected) ServeHTTP(rw http.ResponseWriter, r *http.Request)`.
A call on a nil `authenticator` is a nil dereference. -/
def Protected.ServeHTTP (a : Protected) (r : Request) : GateRun :=
  match a.authenticator with
  | none => ⟨[], some .nilDereference⟩
  | some an =>
    match an.Authenticate r with
    | none => ⟨[.authenticate r, .writeHeader StatusForbidden], none⟩
    | some user =>
      let user := { user with Authorizer := a.authorizer }
      let path : EndPath := ⟨Method r, r.Path⟩
      match User.Authorize (some user) path with
      | (cs, .error p) => ⟨[.authenticate r] ++ cs, some p⟩
      | (cs, .ok false) => ⟨[.authenticate r] ++ cs ++ [.writeHeader StatusForbidden], none⟩
      | (cs, .ok true) => ⟨[.authenticate r] ++ cs ++ [.forward r], none⟩

/-! ## Dispatchers reachable through the registration functions -/

/-- The dispatchers obtained from `NewDispatcher` by `Add` (whether it returns
or panics), `Override`, and assignments to the exported fields. -/
inductive Dispatcher.Reachable : Dispatcher → Prop where
  | new : Dispatcher.Reachable NewDispatcher
  | add (d : Dispatcher) (m : method) (path : Str) (s : Server) :
      Dispatcher.Reachable d → Dispatcher.Reachable (d.Add m path s).state
  | override (d : Dispatcher) (m : method) (path : Str) (s : Server) :
      Dispatcher.Reachable d → Dispatcher.Reachable (d.Override m path s)
  | fields (d : Dispatcher) (nf : Option Handler) (eh : Bool) :
      Dispatcher.Reachable d →
      Dispatcher.Reachable { d with NotFound := nf, ErrorHandler := eh }

/-! ## The error-callback calls of a dispatcher run -/

/-- Whether a call is an invocation of the error callback. -/
def DCall.isErrorHandler : DCall → Bool
  | .errorHandler _ _ => true
  | _ => false

/-- The invocations of the error callback during a run, in order. -/
def errorCalls (calls : List DCall) : List DCall := calls.filter DCall.isErrorHandler

/-- The error-callback call for an error value: one call for a non-nil
error, none for nil. -/
def errorCall (r : Request) (err : Option Error) : List DCall :=
  match err with
  | some e => [.errorHandler r e]
  | none => []

/-! ## Registration sequences -/

/-- The path `Add` and `Override` file a handler under: `if path == "" { path = "/" }`. -/
def routePath (path : Str) : Str := if path = [] then "/".toList else path

/-- The method whose table `Add`, `Override` and `ServeHTTP` use for a method
string: `Method` applied to a request carrying it. -/
def methodOf (m : Str) : method := Method { Method := m, Path := [], Accept := [] }

/-- A chain `d.Add(m1, p1, s1).Add(m2, p2, s2)...`: the calls run in order
and the first panic ends the chain. -/
def Dispatcher.addCalls (d : Dispatcher) (regs : List (method × Str × Server)) :
    Exec Dispatcher :=
  match regs with
  | [] => .done d
  | (m, path, s) :: rest =>
    match d.Add m path s with
    | .done d1 => Dispatcher.addCalls d1 rest
    | .panicked d1 p => .panicked d1 p

/-! ## Content negotiation as the specification words it -/

/-- The Unicode white-space code points. -/
def whiteSpaceCodes : List Nat :=
  [0x09, 0x0a, 0x0b, 0x0c, 0x0d, 0x20, 0x85, 0xa0, 0x1680, 0x2000, 0x2001, 0x2002, 0x2003,
   0x2004, 0x2005, 0x2006, 0x2007, 0x2008, 0x2009, 0x200a, 0x2028, 0x2029, 0x202f, 0x205f,
   0x3000]

/-- Whether a character is white space. -/
def isWhite (c : Char) : Bool := decide (c.toNat ∈ whiteSpaceCodes)

/-- A string without its leading white space. -/
def stripLeft : Str → Str
  | [] => []
  | c :: cs => if isWhite c = true then stripLeft cs else c :: cs

/-- A string without its trailing white space. -/
def stripRight : Str → Str
  | [] => []
  | c :: cs => if stripRight cs = [] ∧ isWhite c = true then [] else c :: stripRight cs

/-- A string without its surrounding white space. -/
def stripSpaces (s : Str) : Str := stripRight (stripLeft s)

/-- A candidate without its parameters: what stands before its first `;`. -/
def cutParameters (a : Str) : Str := a.takeWhile (fun ch => !decide (ch = ';'))

/-- The comma-separated candidates of a header value: `a` is one of the
comma-free pieces that, joined with commas, give `h`. -/
def IsCandidate (h a : Str) : Prop :=
  ∃ pieces : List Str, a ∈ pieces ∧ (∀ x ∈ pieces, ',' ∉ x) ∧
    List.intercalate [','] pieces = h

/-- The part of a content type before its first `;`. -/
def baseMime (c : ContentType) : Str := c.takeWhile (fun ch => !decide (ch = ';'))

/-- A candidate after its parameters (everything from the first `;`) and its
surrounding white space are stripped. -/
def stripCandidate (a : Str) : Str := stripSpaces (cutParameters a)

/-- Acceptance as the claim states it: the header is empty, or one of its
comma-separated candidates, stripped of its parameters and its surrounding
white space, is `*/*` or the base mime type. -/
def acceptedBySpec (c : ContentType) (h : Str) : Prop :=
  h = [] ∨ ∃ a, IsCandidate h a ∧
    (stripCandidate a = "*/*".toList ∨ stripCandidate a = baseMime c)

/-- A candidate stripped of its surrounding white space and then cut at its
first `;`: white space left in front of the `;` stays. -/
def trimmedCandidate (a : Str) : Str := cutParameters (stripSpaces a)

/-- Acceptance as amended: the header is empty, or one of its comma-separated
candidates, stripped of its surrounding white space and then cut at its first
`;`, is `*/*` or the base mime type. -/
def acceptedTrimmed (c : ContentType) (h : Str) : Prop :=
  h = [] ∨ ∃ a, IsCandidate h a ∧
    (trimmedCandidate a = "*/*".toList ∨ trimmedCandidate a = baseMime c)

/-! ## The response a dispatcher run writes -/

/-- Whether a call is made on the response writer. -/
def DCall.isResponse : DCall → Bool
  | .headerSet _ _ => true
  | .writeHeader _ => true
  | .write _ => true
  | _ => false

/-- The response written during a run: its calls on the response writer. -/
def response (calls : List DCall) : List DCall := calls.filter DCall.isResponse

/-! ## Concrete inputs used by the instances below -/

/-- A writer whose `Write` never fails. -/
def okWriter : Writer := fun _ => none

/-- A handler of HTML type answering status 0 and the body `ok`. -/
def pageServer : Server :=
  { ContentType := "text/html; charset=utf-8".toList,
    Serve := fun _ => (0, fun _ => (["ok".toList], none), none) }

/-- The dispatcher after `NewDispatcher().Add(GET, "/x", pageServer)`. -/
def oneRoute : Dispatcher := { NewDispatcher with get := [("/x".toList, pageServer)] }

/-- The dispatcher after `NewDispatcher().Add(GET, "/", pageServer)`. -/
def rootRoute : Dispatcher := { NewDispatcher with get := [("/".toList, pageServer)] }

/-- The admin application of the example wiring, mounted at `admin`. -/
def adminApp : App := { MountPath := "admin".toList, handler := ⟨1⟩ }

/-- The public application, mounted at the empty (fallback) mount path. -/
def publicApp : App := { MountPath := [], handler := ⟨0⟩ }

/-- The router after `New().Add(publicApp, adminApp)`. -/
def twoApps : Main :=
  { mountPaths := [("admin".toList, adminApp), ([], publicApp)], NotFound := none }

/-- An authorizer that allows everything. -/
def allowAll : Authorizer := ⟨fun _ _ => true⟩

/-- An authorizer that denies everything. -/
def denyAll : Authorizer := ⟨fun _ _ => false⟩

/-- An identity with ID `u1` that arrives carrying the `denyAll` authorizer. -/
def knownUser : User :=
  { ID := "u1".toList, EMail := [], Alias := [], Name := [], Authorizer := some denyAll }

/-- An authenticator that resolves every request to `knownUser`. -/
def knownAuthenticator : Authenticator := ⟨fun _ => some knownUser⟩

/-- An admin gate configured with `knownAuthenticator` and `allowAll`. -/
def openAdmin : Admin :=
  { user := none, Authenticator := some knownAuthenticator, Authorizer := some allowAll,
    Dispatcher := oneRoute }

/-- An admin gate with an authenticator but no authorizer. -/
def halfAdmin : Admin :=
  { user := none, Authenticator := some knownAuthenticator, Authorizer := none,
    Dispatcher := oneRoute }

/-- An authenticator that resolves no identity. -/
def noAuthenticator : Authenticator := ⟨fun _ => none⟩

/-- An identity with an empty ID. -/
def blankUser : User :=
  { ID := [], EMail := [], Alias := [], Name := [], Authorizer := none }

/-- An authenticator that resolves every request to `blankUser`. -/
def blankAuthenticator : Authenticator := ⟨fun _ => some blankUser⟩

/-- An admin gate whose authenticator resolves identities with an empty ID. -/
def blankAdmin : Admin :=
  { user := none, Authenticator := some blankAuthenticator, Authorizer := some allowAll,
    Dispatcher := oneRoute }

/-- An admin gate whose authenticator resolves no identity and whose
authorizer is not configured. -/
def anonymousAdmin : Admin :=
  { user := none, Authenticator := some noAuthenticator, Authorizer := none,
    Dispatcher := oneRoute }

/-- A file server mounted at `protected`. -/
def someFiles : Files :=
  { mountPath := "protected".toList, fsDir := "files".toList, fileServer := ⟨2⟩ }

/-- A protected file server whose authenticator resolves no identity and
whose authorizer is nil. -/
def anonymousFiles : Protected := someFiles.Protected none (some noAuthenticator)

/-- A handler whose error is `boom` and whose body-writer fails with `closed`. -/
def failingServer : Server :=
  { ContentType := "text/html; charset=utf-8".toList,
    Serve := fun _ => (500, fun _ => (["oops".toList], some "closed".toList),
      some "boom".toList) }

/-- A dispatcher with the error callback set and `failingServer` at GET `/x`. -/
def failingRoute : Dispatcher :=
  { NewDispatcher with get := [("/x".toList, failingServer)], ErrorHandler := true }

/-- An `HTMLer` with an empty `HTML()` text that streams its own bytes. -/
def streamingPage : HTMLer :=
  { HTML := [], WriterTo := some (fun _ => (["<p>streamed</p>".toList], none)) }

/-- An HTML business function answering `streamingPage`. -/
def streamingServer : HTMLServer := fun _ => (0, some streamingPage, none)

/-- An HTML business function answering status 0 and a nil page. -/
def nilPageServer : HTMLServer := fun _ => (0, none, none)

/-! ## Lemmas on maps -/

theorem GoMap.get?_filter_ne {β : Type} (m : GoMap β) (k q : Str) (h : q ≠ k) :
    GoMap.get? (m.filter (fun e => !decide (e.1 = k))) q = GoMap.get? m q := by
  induction m with
  | nil => rfl
  | cons e rest ih =>
    obtain ⟨k', v⟩ := e
    by_cases hk : k' = k
    · subst hk
      have hq : ¬ k' = q := fun h' => h h'.symm
      simp [List.filter, GoMap.get?, hq, ih]
    · by_cases hq : k' = q
      · subst hq
        simp [List.filter, GoMap.get?, hk]
      · simp [List.filter, GoMap.get?, hk, hq, ih]

theorem GoMap.get?_set {β : Type} (m : GoMap β) (k q : Str) (v : β) :
    (m.set k v).get? q = if k = q then some v else m.get? q := by
  by_cases h : k = q
  · simp [GoMap.set, GoMap.get?, h]
  · have hq : q ≠ k := fun h' => h h'.symm
    simp [GoMap.set, GoMap.get?, h, GoMap.get?_filter_ne m k q hq]

/-! ## Lemmas on methods and route tables -/

theorem methods_distinct :
    GET ≠ POST ∧ GET ≠ PUT ∧ GET ≠ DELETE ∧ GET ≠ PATCH ∧ POST ≠ PUT ∧ POST ≠ DELETE ∧
    POST ≠ PATCH ∧ PUT ≠ DELETE ∧ PUT ≠ PATCH ∧ DELETE ≠ PATCH := by decide

theorem method_cases (m : method) :
    m = GET ∨ m = POST ∨ m = PUT ∨ m = DELETE ∨ m = PATCH ∨
    (m ≠ GET ∧ m ≠ POST ∧ m ≠ PUT ∧ m ≠ DELETE ∧ m ≠ PATCH) := by
  by_cases a1 : m = GET
  · exact Or.inl a1
  by_cases a2 : m = POST
  · exact Or.inr (Or.inl a2)
  by_cases a3 : m = PUT
  · exact Or.inr (Or.inr (Or.inl a3))
  by_cases a4 : m = DELETE
  · exact Or.inr (Or.inr (Or.inr (Or.inl a4)))
  by_cases a5 : m = PATCH
  · exact Or.inr (Or.inr (Or.inr (Or.inr (Or.inl a5))))
  · exact Or.inr (Or.inr (Or.inr (Or.inr (Or.inr ⟨a1, a2, a3, a4, a5⟩))))

set_option maxHeartbeats 40000 in
theorem methodOf_cases (m : method) :
    (m = GET ∧ methodOf m = GET) ∨ (m = POST ∧ methodOf m = POST) ∨
    (m = PUT ∧ methodOf m = PUT) ∨ (m = DELETE ∧ methodOf m = DELETE) ∨
    (m = PATCH ∧ methodOf m = PATCH) ∨
    ((m ≠ GET ∧ m ≠ POST ∧ m ≠ PUT ∧ m ≠ DELETE ∧ m ≠ PATCH) ∧ methodOf m = GET) := by
  obtain ⟨h1, h2, h3, h4, h5, h6, h7, h8, h9, h10⟩ := methods_distinct
  rcases method_cases m with h | h | h | h | h | ⟨a1, a2, a3, a4, a5⟩
  · exact Or.inl ⟨h, by simp [methodOf, Method, h]⟩
  · exact Or.inr (Or.inl ⟨h, by simp [methodOf, Method, h, h1.symm]⟩)
  · exact Or.inr (Or.inr (Or.inl ⟨h, by simp [methodOf, Method, h, h2.symm, h5.symm]⟩))
  · exact Or.inr (Or.inr (Or.inr (Or.inl
      ⟨h, by simp [methodOf, Method, h, h3.symm, h6.symm, h8.symm, h10]⟩)))
  · exact Or.inr (Or.inr (Or.inr (Or.inr (Or.inl
      ⟨h, by simp [methodOf, Method, h, h4.symm, h7.symm, h9.symm]⟩))))
  · exact Or.inr (Or.inr (Or.inr (Or.inr (Or.inr
      ⟨⟨a1, a2, a3, a4, a5⟩, by simp [methodOf, Method, a1, a2, a3, a4, a5]⟩))))


theorem Dispatcher.table_methodOf (d : Dispatcher) (m : Str) :
    d.table (methodOf m) = d.table m := by
  obtain ⟨h1, h2, h3, h4, h5, h6, h7, h8, h9, h10⟩ := methods_distinct
  rcases methodOf_cases m with ⟨rfl, hm⟩ | ⟨rfl, hm⟩ | ⟨rfl, hm⟩ | ⟨rfl, hm⟩ | ⟨rfl, hm⟩ |
    ⟨⟨a1, a2, a3, a4, a5⟩, hm⟩ <;> rw [hm]
  simp [Dispatcher.table, a1, a2, a3, a4, a5]

theorem Dispatcher.Override_table (d : Dispatcher) (m M : method) (path q : Str) (s : Server) :
    ((d.Override m path s).table M).get? q =
      if methodOf m = methodOf M ∧ routePath path = q then some s else (d.table M).get? q := by
  obtain ⟨h1, h2, h3, h4, h5, h6, h7, h8, h9, h10⟩ := methods_distinct
  rcases methodOf_cases m with ⟨rfl, hm⟩ | ⟨rfl, hm⟩ | ⟨rfl, hm⟩ | ⟨rfl, hm⟩ | ⟨rfl, hm⟩ |
    ⟨⟨a1, a2, a3, a4, a5⟩, hm⟩ <;>
  rcases methodOf_cases M with ⟨rfl, hM⟩ | ⟨rfl, hM⟩ | ⟨rfl, hM⟩ | ⟨rfl, hM⟩ | ⟨rfl, hM⟩ |
    ⟨⟨b1, b2, b3, b4, b5⟩, hM⟩ <;>
  simp [Dispatcher.Override, Dispatcher.table, routePath, GoMap.get?_set, hm, hM, h1, h2, h3, h4,
    h5, h6, h7, h8, h9, h10, h1.symm, h2.symm, h3.symm, h4.symm, h5.symm, h6.symm, h7.symm,
    h8.symm, h9.symm, h10.symm, *]

theorem Dispatcher.Add_eq (d : Dispatcher) (m : method) (path : Str) (s : Server) :
    d.Add m path s =
      match (d.table m).get? (routePath path) with
      | some _ => .panicked d (.pathReserved (methodOf m) (routePath path))
      | none => .done (d.Override m path s) := by
  obtain ⟨h1, h2, h3, h4, h5, h6, h7, h8, h9, h10⟩ := methods_distinct
  rcases methodOf_cases m with ⟨rfl, hm⟩ | ⟨rfl, hm⟩ | ⟨rfl, hm⟩ | ⟨rfl, hm⟩ | ⟨rfl, hm⟩ |
    ⟨⟨a1, a2, a3, a4, a5⟩, hm⟩ <;>
  simp [Dispatcher.Add, Dispatcher.Override, Dispatcher.table, routePath, hm, h1, h2, h3, h4,
    h5, h6, h7, h8, h9, h10, h1.symm, h2.symm, h3.symm, h4.symm, h5.symm, h6.symm, h7.symm,
    h8.symm, h9.symm, h10.symm, *]


theorem Dispatcher.Override_fields (d : Dispatcher) (m : method) (path : Str) (s : Server) :
    (d.Override m path s).NotFound = d.NotFound ∧
    (d.Override m path s).ErrorHandler = d.ErrorHandler := by
  unfold Dispatcher.Override
  split_ifs <;> exact ⟨rfl, rfl⟩

theorem Dispatcher.Add_done (d d1 : Dispatcher) (m : method) (path : Str) (s : Server)
    (h : d.Add m path s = .done d1) :
    (d.table m).get? (routePath path) = none ∧ d1 = d.Override m path s := by
  rw [Dispatcher.Add_eq] at h
  cases hg : (d.table m).get? (routePath path) with
  | none => rw [hg] at h; simp only [Exec.done.injEq] at h; exact ⟨rfl, h.symm⟩
  | some s2 => rw [hg] at h; simp at h

/-- What a panic-free chain of `Add` calls leaves in the tables: each
registration is found at its route path in the table of its method, that slot
was free before, and a slot no registration names is as it was. -/
theorem Dispatcher.addCalls_tables (regs : List (method × Str × Server)) :
    ∀ (d d1 : Dispatcher), d.addCalls regs = .done d1 →
      (d1.NotFound = d.NotFound ∧ d1.ErrorHandler = d.ErrorHandler) ∧
      ∀ (M : method) (q : Str),
        (∀ m p s, (m, p, s) ∈ regs → methodOf m = methodOf M → routePath p = q →
          (d1.table M).get? q = some s ∧ (d.table M).get? q = none) ∧
        ((∀ m p s, (m, p, s) ∈ regs → methodOf m = methodOf M → routePath p ≠ q) →
          (d1.table M).get? q = (d.table M).get? q) := by
  induction regs with
  | nil =>
    intro d d1 h
    simp only [Dispatcher.addCalls, Exec.done.injEq] at h
    subst h
    refine ⟨⟨rfl, rfl⟩, fun M q => ⟨?_, fun _ => rfl⟩⟩
    intro m p s hmem
    simp at hmem
  | cons e rest ih =>
    obtain ⟨m0, p0, s0⟩ := e
    intro d d1 h
    simp only [Dispatcher.addCalls] at h
    cases hadd : d.Add m0 p0 s0 with
    | panicked d2 p => rw [hadd] at h; simp at h
    | done d2 =>
      rw [hadd] at h
      simp only at h
      obtain ⟨hfree, hd2⟩ := Dispatcher.Add_done d d2 m0 p0 s0 hadd
      obtain ⟨hf, hrest⟩ := ih d2 d1 h
      have hstep : ∀ (M : method) (q : Str), (d2.table M).get? q =
          if methodOf m0 = methodOf M ∧ routePath p0 = q then some s0 else (d.table M).get? q := by
        intro M q
        rw [hd2]
        exact Dispatcher.Override_table d m0 M p0 q s0
      have hfl := Dispatcher.Override_fields d m0 p0 s0
      refine ⟨⟨?_, ?_⟩, ?_⟩
      · rw [hf.1, hd2]; exact hfl.1
      · rw [hf.2, hd2]; exact hfl.2
      intro M q
      obtain ⟨ih1, ih2⟩ := hrest M q
      have hfree' : methodOf m0 = methodOf M → routePath p0 = q → (d.table M).get? q = none := by
        intro hm hp
        rw [← Dispatcher.table_methodOf d M, ← hm, Dispatcher.table_methodOf d m0, ← hp]
        exact hfree
      constructor
      · intro m p s hmem hm hp
        rcases List.mem_cons.mp hmem with heq | hin
        · simp only [Prod.mk.injEq] at heq
          obtain ⟨rfl, rfl, rfl⟩ := heq
          have h2 : (d2.table M).get? q = some s := by rw [hstep, if_pos ⟨hm, hp⟩]
          refine ⟨?_, hfree' hm hp⟩
          rw [ih2, h2]
          intro m' p' s' hmem' hm' hp'
          have := (ih1 m' p' s' hmem' hm' hp').2
          rw [h2] at this
          simp at this
        · obtain ⟨ha, hb⟩ := ih1 m p s hin hm hp
          refine ⟨ha, ?_⟩
          rw [hstep] at hb
          by_cases hc : methodOf m0 = methodOf M ∧ routePath p0 = q
          · rw [if_pos hc] at hb; simp at hb
          · rw [if_neg hc] at hb; exact hb
      · intro hno
        have hhead : ¬ (methodOf m0 = methodOf M ∧ routePath p0 = q) := fun hc =>
          hno m0 p0 s0 (List.mem_cons_self _ _) hc.1 hc.2
        rw [ih2 (fun m p s hmem => hno m p s (List.mem_cons_of_mem _ hmem)), hstep, if_neg hhead]


theorem methodOf_five (m : method) (h : m ∈ [GET, POST, PUT, PATCH, DELETE]) :
    methodOf m = m := by
  simp only [List.mem_cons, List.mem_singleton, List.not_mem_nil, or_false] at h
  rcases methodOf_cases m with ⟨h0, hm⟩ | ⟨h0, hm⟩ | ⟨h0, hm⟩ | ⟨h0, hm⟩ | ⟨h0, hm⟩ | ⟨⟨a1, a2, a3, a4, a5⟩, _⟩
  · rw [hm, h0]
  · rw [hm, h0]
  · rw [hm, h0]
  · rw [hm, h0]
  · rw [hm, h0]
  · rcases h with h | h | h | h | h <;> contradiction

theorem Method_eq_methodOf (r : Request) : Method r = methodOf r.Method := rfl

/-! ## C1: exact-match routing -/

/-- C1, as stated, fails for the empty path: after `Add(GET, "", pageServer)`
a GET request whose URL path is the empty string is answered by
`http.NotFound` and not routed to the handler, while a GET request to `/`, a
path different from the registered string, is routed to it. -/
theorem Dispatcher.empty_path_not_routed :
    NewDispatcher.addCalls [(GET, [], pageServer)] = .done rootRoute ∧
    rootRoute.ServeHTTP okWriter ⟨GET, [], []⟩ = [.httpNotFound ⟨GET, [], []⟩] ∧
    rootRoute.ServeHTTP okWriter ⟨GET, [], []⟩ ≠
      rootRoute.serveFound pageServer okWriter ⟨GET, [], []⟩ ∧
    rootRoute.ServeHTTP okWriter ⟨GET, "/".toList, []⟩ =
      rootRoute.serveFound pageServer okWriter ⟨GET, "/".toList, []⟩ := by
  refine ⟨rfl, rfl, ?_, rfl⟩
  intro h
  have h2 : rootRoute.ServeHTTP okWriter ⟨GET, [], []⟩ = [.httpNotFound ⟨GET, [], []⟩] := rfl
  rw [h2] at h
  have h3 := congrArg List.length h
  simp [Dispatcher.serveFound, isContentAccepted, Dispatcher.report, pageServer] at h3

/-- C1, amended: in a dispatcher built from `NewDispatcher` (with any
`NotFound` and error callback) by a panic-free chain of `Add` calls, a
registration `(m, p, s)` with `m` one of the five methods makes every request
with method `m` and URL path `routePath p` (`p`, or `/` for the empty `p`)
take the found branch with `s`; and a request with method `m` whose URL path
differs from the route path of every registration filed under `m` gets the
not-found behaviour (the `NotFound` handler if set, otherwise
`http.NotFound`) and no `Serve` call is made. -/
theorem Dispatcher.routes_exactly_registered (nf : Option Handler) (eh : Bool)
    (regs : List (method × Str × Server)) (d : Dispatcher)
    (hbuilt : ({ NewDispatcher with NotFound := nf, ErrorHandler := eh } : Dispatcher).addCalls
      regs = .done d) :
    (∀ m p s, (m, p, s) ∈ regs → m ∈ [GET, POST, PUT, PATCH, DELETE] →
      ∀ (wr : Writer) (r : Request), r.Method = m → r.Path = routePath p →
        d.ServeHTTP wr r = d.serveFound s wr r) ∧
    (∀ m, m ∈ [GET, POST, PUT, PATCH, DELETE] →
      ∀ (wr : Writer) (r : Request), r.Method = m →
        (∀ m' p' s', (m', p', s') ∈ regs → methodOf m' = m → r.Path ≠ routePath p') →
        d.NotFound = nf ∧ d.ServeHTTP wr r = d.serveNotFound r ∧
        ∀ c ∈ d.ServeHTTP wr r, ∀ s r', c ≠ .serve s r') := by
  obtain ⟨⟨hnf, _⟩, htab⟩ := Dispatcher.addCalls_tables regs _ d hbuilt
  constructor
  · intro m p s hmem hfive wr r hm hp
    have hM : methodOf m = methodOf (Method r) := by
      simp only [Method_eq_methodOf, hm, methodOf_five m hfive]
    have := ((htab (Method r) r.Path).1 m p s hmem hM hp.symm).1
    simp only [Dispatcher.ServeHTTP, this]
  · intro m hfive wr r hm hno
    have hlook : (d.table (Method r)).get? r.Path = none := by
      rw [(htab (Method r) r.Path).2]
      · simp only [Method_eq_methodOf, Dispatcher.table_methodOf]
        simp [Dispatcher.table, NewDispatcher, GoMap.get?]
      · intro m' p' s' hmem hM hp
        refine hno m' p' s' hmem ?_ hp.symm
        simp only [hM, Method_eq_methodOf, hm, methodOf_five m hfive]
    have hserve : d.ServeHTTP wr r = d.serveNotFound r := by
      simp only [Dispatcher.ServeHTTP, hlook]
    refine ⟨hnf, hserve, ?_⟩
    rw [hserve]
    intro c hc s r'
    unfold Dispatcher.serveNotFound at hc
    cases hd : d.NotFound <;> rw [hd] at hc <;> simp at hc <;> subst hc <;> simp

/-- C1, amended, at `NewDispatcher().Add(GET, "/x", pageServer)`. -/
theorem Dispatcher.routes_exactly_registered_witness :
    NewDispatcher.addCalls [(GET, "/x".toList, pageServer)] = .done oneRoute ∧
    oneRoute.ServeHTTP okWriter ⟨GET, "/x".toList, []⟩ =
      oneRoute.serveFound pageServer okWriter ⟨GET, "/x".toList, []⟩ :=
  ⟨rfl, (Dispatcher.routes_exactly_registered none false [(GET, "/x".toList, pageServer)]
    oneRoute rfl).1 GET "/x".toList pageServer (List.mem_singleton.mpr rfl)
    (List.mem_cons_self _ _) okWriter ⟨GET, "/x".toList, []⟩ rfl rfl⟩

/-! ## C2: duplicate registration -/

/-- C2, as stated, fails for the empty path: with a GET handler at `/`,
`Add(GET, "", s)` panics although the GET table holds no handler at the
empty path. -/
theorem Dispatcher.Add_empty_path_panics :
    (rootRoute.Add GET [] pageServer).isPanic = true ∧
    ((rootRoute.table GET).get? []).isSome = false := ⟨rfl, rfl⟩

/-- C2, amended: `Add(m, p, s)` panics if and only if the route table of `m`
already holds a handler at `routePath p` (`p`, or `/` for the empty `p`); when
it panics the dispatcher is left exactly as it was, and when it returns, a
later `Add` for the same `(m, p)` panics. -/
theorem Dispatcher.Add_panics_iff_occupied (d : Dispatcher) (m : method) (p : Str) (s : Server) :
    ((d.Add m p s).isPanic = true ↔ ((d.table m).get? (routePath p)).isSome = true) ∧
    ((d.Add m p s).isPanic = true → (d.Add m p s).state = d) ∧
    ((d.Add m p s).isPanic = false →
      ∀ s', ((d.Add m p s).state.Add m p s').isPanic = true) := by
  rw [Dispatcher.Add_eq]
  cases hg : (d.table m).get? (routePath p) with
  | some s2 => simp [Exec.isPanic, Exec.state]
  | none =>
    simp only [Exec.isPanic, Exec.state, Option.isSome_none, false_implies, true_implies,
      true_and, Bool.false_eq_true]
    intro s'
    rw [Dispatcher.Add_eq]
    have := Dispatcher.Override_table d m m p (routePath p) s
    rw [if_pos ⟨rfl, rfl⟩] at this
    rw [this]

/-- C2 on the dispatcher with a GET handler at `/`: a second `Add(GET, "/", s)`
panics and leaves the dispatcher as it was. -/
theorem Dispatcher.Add_panics_iff_occupied_witness :
    ((rootRoute.table GET).get? (routePath "/".toList)).isSome = true ∧
    (rootRoute.Add GET "/".toList pageServer).isPanic = true ∧
    (rootRoute.Add GET "/".toList pageServer).state = rootRoute :=
  ⟨rfl, (Dispatcher.Add_panics_iff_occupied rootRoute GET "/".toList pageServer).1.mpr rfl,
   (Dispatcher.Add_panics_iff_occupied rootRoute GET "/".toList pageServer).2.1 rfl⟩

/-! ## C3, C4: content negotiation -/

theorem Split_head (s : Str) (sep : Char) :
    ∃ xs, Split s sep = s.takeWhile (fun ch => !decide (ch = sep)) :: xs := by
  induction s with
  | nil => exact ⟨[], rfl⟩
  | cons c cs ih =>
    obtain ⟨xs, hxs⟩ := ih
    by_cases h : c = sep
    · exact ⟨Split cs sep, by simp [Split, h]⟩
    · exact ⟨xs, by simp [Split, h, hxs]⟩

/-- The pieces `Split` returns hold no separator. -/
theorem Split_pieces (s : Str) (sep : Char) : ∀ x ∈ Split s sep, sep ∉ x := by
  induction s with
  | nil => intro x hx; simp [Split] at hx; simp [hx]
  | cons c cs ih =>
    obtain ⟨xs, hxs⟩ := Split_head cs sep
    intro x hx
    by_cases h : c = sep
    · simp only [Split, h, if_true, List.mem_cons] at hx
      rcases hx with rfl | hx
      · simp
      · exact ih x (by rw [hxs]; simpa [hxs] using hx)
    · rw [hxs] at ih
      simp only [Split, h, if_false, hxs, List.mem_cons] at hx
      rcases hx with rfl | hx
      · have := ih _ (List.mem_cons_self _ _)
        intro hmem
        rcases List.mem_cons.mp hmem with h' | h'
        · exact h h'.symm
        · exact this h'
      · exact ih x (List.mem_cons_of_mem _ hx)

/-- Joining the pieces `Split` returns with the separator gives the string back. -/
theorem Split_join (s : Str) (sep : Char) : List.intercalate [sep] (Split s sep) = s := by
  induction s with
  | nil => simp [Split, List.intercalate]
  | cons c cs ih =>
    obtain ⟨xs, hxs⟩ := Split_head cs sep
    rw [hxs] at ih
    by_cases h : c = sep
    · simp only [Split, h, if_true, hxs]
      simp only [List.intercalate, List.intersperse] at ih ⊢
      simp at ih ⊢
      exact ih
    · simp only [Split, h, if_false, hxs]
      cases xs with
      | nil => simpa [List.intercalate, List.intersperse] using ih
      | cons y ys => simpa [List.intercalate, List.intersperse] using ih

theorem ContentType.Mime_eq_baseMime (c : ContentType) : c.Mime = baseMime c := by
  obtain ⟨xs, hxs⟩ := Split_head c ';'
  simp [ContentType.Mime, baseMime, hxs]

theorem IsSpace_eq_isWhite (c : Char) : IsSpace c = isWhite c := by
  unfold IsSpace isWhite whiteSpaceCodes
  generalize c.toNat = n
  rw [Bool.eq_iff_iff]
  simp only [Bool.or_eq_true, Bool.and_eq_true, decide_eq_true_eq, beq_iff_eq, List.mem_cons,
    List.mem_singleton, List.not_mem_nil, or_false]
  omega

theorem stripLeft_eq_dropWhile (s : Str) : stripLeft s = s.dropWhile IsSpace := by
  induction s with
  | nil => rfl
  | cons c cs ih =>
    by_cases h : isWhite c = true
    · simp [stripLeft, List.dropWhile, IsSpace_eq_isWhite, h, ih]
    · simp [stripLeft, List.dropWhile, IsSpace_eq_isWhite, h]

theorem stripRight_cons (c : Char) (t : Str) :
    stripRight (c :: t) =
      if stripRight t = [] ∧ isWhite c = true then [] else c :: stripRight t := rfl

theorem stripRight_concat (l : Str) (x : Char) :
    stripRight (l ++ [x]) = if isWhite x = true then stripRight l else l ++ [x] := by
  induction l with
  | nil => by_cases h : isWhite x = true <;> simp [stripRight, h]
  | cons c l ih =>
    rw [List.cons_append, stripRight_cons, ih]
    by_cases h : isWhite x = true
    · rw [if_pos h, if_pos h, stripRight_cons]
    · rw [if_neg h, if_neg h]
      have hne : ¬ (l ++ [x] = [] ∧ isWhite c = true) := by simp
      rw [if_neg hne]

theorem stripRight_eq_rdropWhile (s : Str) : stripRight s = s.rdropWhile IsSpace := by
  induction s using List.reverseRecOn with
  | nil => rfl
  | append_singleton l x ih =>
    rw [stripRight_concat, List.rdropWhile_concat, IsSpace_eq_isWhite, ih]

theorem TrimSpace_eq_stripSpaces (s : Str) : TrimSpace s = stripSpaces s := by
  unfold TrimSpace stripSpaces
  rw [stripRight_eq_rdropWhile, stripLeft_eq_dropWhile]
  rfl

theorem Split_no_sep (x : Str) (sep : Char) (h : sep ∉ x) : Split x sep = [x] := by
  induction x with
  | nil => rfl
  | cons c cs ih =>
    have hc : c ≠ sep := fun e => h (e ▸ List.mem_cons_self _ _)
    have hcs : sep ∉ cs := fun e => h (List.mem_cons_of_mem _ e)
    simp [Split, hc, ih hcs]

theorem Split_append_sep (x t : Str) (sep : Char) (h : sep ∉ x) :
    Split (x ++ sep :: t) sep = x :: Split t sep := by
  induction x with
  | nil => simp [Split]
  | cons c cs ih =>
    have hc : c ≠ sep := fun e => h (e ▸ List.mem_cons_self _ _)
    have hcs : sep ∉ cs := fun e => h (List.mem_cons_of_mem _ e)
    simp [Split, hc, ih hcs]

theorem intercalate_cons_cons (sep : Char) (x y : Str) (rest : List Str) :
    List.intercalate [sep] (x :: y :: rest) = x ++ sep :: List.intercalate [sep] (y :: rest) := by
  simp [List.intercalate, List.intersperse]

theorem Split_intercalate (sep : Char) (pieces : List Str) (hne : pieces ≠ [])
    (hfree : ∀ x ∈ pieces, sep ∉ x) : Split (List.intercalate [sep] pieces) sep = pieces := by
  induction pieces with
  | nil => exact absurd rfl hne
  | cons x rest ih =>
    cases rest with
    | nil =>
      have : List.intercalate [sep] [x] = x := by simp [List.intercalate, List.intersperse]
      rw [this]
      exact Split_no_sep x sep (hfree x (List.mem_cons_self _ _))
    | cons y rest =>
      rw [intercalate_cons_cons, Split_append_sep _ _ _ (hfree x (List.mem_cons_self _ _)),
        ih (by simp) (fun z hz => hfree z (List.mem_cons_of_mem _ hz))]

/-- The pieces `Split` returns for the comma are the comma-separated candidates. -/
theorem mem_Split_iff_candidate (h a : Str) : a ∈ Split h ',' ↔ IsCandidate h a := by
  constructor
  · intro ha
    exact ⟨Split h ',', ha, Split_pieces h ',', Split_join h ','⟩
  · rintro ⟨pieces, ha, hfree, hjoin⟩
    have hne : pieces ≠ [] := by
      intro e
      rw [e] at ha
      simp at ha
    rw [← hjoin, Split_intercalate ',' pieces hne hfree]
    exact ha

/-- C3, as stated, fails for a candidate with white space in front of its
parameters: for the Accept header `text/html ;q=0.9` the candidate stripped of
its parameters and its surrounding white space is `text/html`, the base mime
type of an HTML handler, yet `isContentAccepted` compares `text/html ` (with
the space) and is false, and the request is answered with status 417. -/
theorem isContentAccepted_space_before_parameters :
    stripCandidate "text/html ;q=0.9".toList = "text/html".toList ∧
    baseMime "text/html; charset=utf-8".toList = "text/html".toList ∧
    acceptedBySpec "text/html; charset=utf-8".toList "text/html ;q=0.9".toList ∧
    isContentAccepted "text/html; charset=utf-8".toList
      ⟨GET, "/".toList, "text/html ;q=0.9".toList⟩ = false ∧
    rootRoute.ServeHTTP okWriter ⟨GET, "/".toList, "text/html ;q=0.9".toList⟩ =
      [.writeHeader 417,
       .write (.sprintf "content-type %#v not accepted by client".toList
         "text/html".toList)] := by
  refine ⟨by decide, by decide, ?_, by decide, rfl⟩
  refine Or.inr ⟨"text/html ;q=0.9".toList, ⟨["text/html ;q=0.9".toList], ?_, ?_, ?_⟩,
    Or.inr (by decide)⟩
  · exact List.mem_singleton.mpr rfl
  · intro x hx
    rw [List.mem_singleton.mp hx]
    decide
  · decide

/-- C3, amended: `isContentAccepted(c, r)` is true exactly when the Accept
header is empty or one of its comma-separated candidates, after its
surrounding white space is stripped and the result is cut at its first `;`
(white space left in front of the `;` is not removed), is `*/*` or
`c.Mime()`, the part of `c` before the first `;`; and a request that matches a
route whose content type is refused in this way gets status 417. -/
theorem isContentAccepted_iff_trimmed (c : ContentType) (r : Request) :
    (isContentAccepted c r = true ↔ acceptedTrimmed c r.Accept) ∧
    c.Mime = baseMime c ∧
    (∀ (d : Dispatcher) (s : Server) (wr : Writer),
      (d.table (Method r)).get? r.Path = some s → s.ContentType = c →
      ¬ acceptedTrimmed c r.Accept →
      d.ServeHTTP wr r =
        [.writeHeader 417,
         .write (.sprintf "content-type %#v not accepted by client".toList (baseMime c))]) := by
  have hiff : isContentAccepted c r = true ↔ acceptedTrimmed c r.Accept := by
    unfold isContentAccepted acceptedTrimmed
    by_cases hh : r.Accept = []
    · simp [hh]
    · simp only [hh, if_false, false_or, List.any_eq_true]
      constructor
      · rintro ⟨a, ha, hx⟩
        refine ⟨a, (mem_Split_iff_candidate r.Accept a).mp ha, ?_⟩
        obtain ⟨xs, hxs⟩ := Split_head (TrimSpace a) ';'
        rw [hxs] at hx
        simpa [trimmedCandidate, cutParameters, ← TrimSpace_eq_stripSpaces,
          ContentType.Mime_eq_baseMime] using hx
      · rintro ⟨a, ha, hx⟩
        refine ⟨a, (mem_Split_iff_candidate r.Accept a).mpr ha, ?_⟩
        obtain ⟨xs, hxs⟩ := Split_head (TrimSpace a) ';'
        rw [hxs]
        simpa [trimmedCandidate, cutParameters, ← TrimSpace_eq_stripSpaces,
          ContentType.Mime_eq_baseMime] using hx
  refine ⟨hiff, ContentType.Mime_eq_baseMime c, ?_⟩
  intro d s wr hfound hc hno
  have hrej : isContentAccepted c r = false := by
    cases h : isContentAccepted c r
    · rfl
    · exact absurd (hiff.mp h) hno
  subst hc
  simp [Dispatcher.ServeHTTP, hfound, Dispatcher.serveFound, hrej, StatusExpectationFailed,
    ContentType.Mime_eq_baseMime]

/-- C3, amended, for an HTML handler: on the Accept header quoted in `app.go`
the candidate `text/html` is the base mime type; on a header whose candidates
are surrounded by white space the candidate ` text/html;q=0.9`, stripped and
cut, is the base mime type as well. -/
theorem isContentAccepted_iff_trimmed_witness :
    acceptedTrimmed "text/html; charset=utf-8".toList
      "text/html, application/xhtml+xml, application/xml;q=0.9, */*;q=0.8".toList ∧
    acceptedTrimmed "text/html; charset=utf-8".toList
      "application/json , \ttext/html;q=0.9 ".toList ∧
    trimmedCandidate " \ttext/html;q=0.9 ".toList = "text/html".toList ∧
    trimmedCandidate "text/html ;q=0.9".toList = "text/html ".toList :=
  ⟨(isContentAccepted_iff_trimmed "text/html; charset=utf-8".toList
    ⟨GET, "/".toList,
     "text/html, application/xhtml+xml, application/xml;q=0.9, */*;q=0.8".toList⟩).1.mp rfl,
   (isContentAccepted_iff_trimmed "text/html; charset=utf-8".toList
    ⟨GET, "/".toList, "application/json , \ttext/html;q=0.9 ".toList⟩).1.mp rfl,
   by decide, by decide⟩

/-- C4: when the request matches a registered handler whose content type the
Accept header does not accept, `Dispatcher.ServeHTTP` writes status 417 and
a body formatted from the handler's base mime type, and makes no other call:
no Content-Type header is set and `Serve` is not invoked. -/
theorem Dispatcher.ServeHTTP_not_accepted (d : Dispatcher) (wr : Writer) (r : Request)
    (s : Server) (hfound : (d.table (Method r)).get? r.Path = some s)
    (hrej : isContentAccepted s.ContentType r = false) :
    d.ServeHTTP wr r =
      [.writeHeader 417,
       .write (.sprintf "content-type %#v not accepted by client".toList
         (baseMime s.ContentType))] ∧
    (∀ c ∈ d.ServeHTTP wr r, (∀ k v, c ≠ .headerSet k v) ∧ ∀ s' r', c ≠ .serve s' r') := by
  have h : d.ServeHTTP wr r =
      [.writeHeader 417,
       .write (.sprintf "content-type %#v not accepted by client".toList
         (baseMime s.ContentType))] := by
    simp [Dispatcher.ServeHTTP, hfound, Dispatcher.serveFound, hrej, StatusExpectationFailed,
      ContentType.Mime_eq_baseMime]
  refine ⟨h, ?_⟩
  rw [h]
  intro c hc
  simp only [List.mem_cons, List.mem_singleton, List.not_mem_nil, or_false] at hc
  rcases hc with rfl | rfl <;> simp

/-- C4 at a GET request to `/x` that accepts only `application/json`, on a
dispatcher serving HTML at `/x`. -/
theorem Dispatcher.ServeHTTP_not_accepted_witness :
    (oneRoute.table (Method ⟨GET, "/x".toList, "application/json".toList⟩)).get? "/x".toList =
      some pageServer ∧
    oneRoute.ServeHTTP okWriter ⟨GET, "/x".toList, "application/json".toList⟩ =
      [.writeHeader 417,
       .write (.sprintf "content-type %#v not accepted by client".toList "text/html".toList)] :=
  ⟨rfl, (Dispatcher.ServeHTTP_not_accepted oneRoute okWriter
    ⟨GET, "/x".toList, "application/json".toList⟩ pageServer rfl rfl).1⟩

/-! ## C5, C6: mount-path selection -/

theorem IndexFrom_slash_step (c : Char) (cs : Str) (i : Int) (hc : c ≠ '/') :
    IndexFrom "/".toList (c :: cs) i = IndexFrom "/".toList cs (i + 1) := by
  have hc' : ¬ '/' = c := fun h => hc h.symm
  simp [IndexFrom, List.isPrefixOf, hc']

theorem IndexFrom_slash_absent (s : Str) (i : Int) (hs : '/' ∉ s) :
    IndexFrom "/".toList s i = -1 := by
  induction s generalizing i with
  | nil => simp [IndexFrom]
  | cons c cs ih =>
    have hc : c ≠ '/' := fun h => hs (h ▸ List.mem_cons_self _ _)
    have hcs : '/' ∉ cs := fun h => hs (List.mem_cons_of_mem _ h)
    rw [IndexFrom_slash_step c cs i hc, ih _ hcs]

theorem IndexFrom_slash_first (s rest : Str) (i : Int) (hs : '/' ∉ s) :
    IndexFrom "/".toList (s ++ '/' :: rest) i = i + s.length := by
  induction s generalizing i with
  | nil => simp [IndexFrom, List.isPrefixOf]
  | cons c cs ih =>
    have hc : c ≠ '/' := fun h => hs (h ▸ List.mem_cons_self _ _)
    have hcs : '/' ∉ cs := fun h => hs (List.mem_cons_of_mem _ h)
    rw [List.cons_append, IndexFrom_slash_step c _ i hc, ih _ hcs, List.length_cons]
    push_cast
    omega

theorem Main.getApp_segment (m : Main) (r : Request) (s rest : Str) (hs : '/' ∉ s)
    (hp : r.Path = '/' :: (s ++ '/' :: rest)) :
    m.getApp r =
      match m.mountPaths.get? s with
      | some a => .ok (some a, { r with Path := '/' :: rest })
      | none => .ok (m.mountPaths.get? fallbackPath, r) := by
  have hidx : Index (s ++ '/' :: rest) "/".toList = (s.length : Int) := by
    unfold Index
    rw [IndexFrom_slash_first s rest 0 hs]
    simp
  have hn : ((s.length : Int) + 1).toNat = s.length + 1 := by omega
  have hlen : r.Path.length = s.length + rest.length + 2 := by
    rw [hp]; simp; omega
  have h1 : sliceFrom r.Path 1 = .ok (s ++ '/' :: rest) := by
    have hc : (0 : Int) ≤ 1 ∧ (1 : Int) ≤ (r.Path.length : Int) := by omega
    rw [sliceFrom, if_pos hc, hp]
    rfl
  have h2 : slice r.Path 1 ((s.length : Int) + 1) = .ok s := by
    have hc : (0 : Int) ≤ 1 ∧ (1 : Int) ≤ (s.length : Int) + 1 ∧
        (s.length : Int) + 1 ≤ (r.Path.length : Int) := by omega
    rw [slice, if_pos hc, hn, hp]
    simp
  have h3 : sliceFrom r.Path ((s.length : Int) + 1) = .ok ('/' :: rest) := by
    have hc : (0 : Int) ≤ (s.length : Int) + 1 ∧
        (s.length : Int) + 1 ≤ (r.Path.length : Int) := by omega
    rw [sliceFrom, if_pos hc, hn, hp]
    simp
  have hne : ¬ ((s.length : Int) = -1) := by omega
  unfold Main.getApp
  simp only [h1, hidx, h2, h3, hne, bind, Except.bind, if_false]
  cases m.mountPaths.get? s <;> rfl

theorem Main.getApp_no_segment (m : Main) (r : Request) (s : Str) (hs : '/' ∉ s)
    (hp : r.Path = '/' :: s) :
    m.getApp r = .ok (m.mountPaths.get? fallbackPath, r) := by
  have hidx : Index s "/".toList = -1 := IndexFrom_slash_absent s 0 hs
  have h1 : sliceFrom r.Path 1 = .ok s := by
    have hc : (0 : Int) ≤ 1 ∧ (1 : Int) ≤ (r.Path.length : Int) := by
      rw [hp]; simp
    rw [sliceFrom, if_pos hc, hp]
    rfl
  unfold Main.getApp
  simp only [h1, hidx, bind, Except.bind, if_true]
  rfl

theorem Main.ServeHTTP_of_getApp (m : Main) (r r1 : Request) (a : App)
    (h : m.getApp r = .ok (some a, r1)) : m.ServeHTTP r = .ok [.appServe a r1] := by
  simp [Main.ServeHTTP, h, bind, Except.bind, pure, Except.pure]

/-- C5: for a URL path `/` + `s` + `/` + `rest` with no `/` in `s`: if an
application is registered at mount path `s`, `getApp` selects it and rewrites
the URL path to `/` + `rest`, and `Main.ServeHTTP` forwards the rewritten
request to it; if nothing is registered at `s`, `getApp` selects the entry of
the empty mount path and leaves the request as it is, and `Main.ServeHTTP`
forwards the unchanged request to the fallback application. -/
theorem Main.routes_by_first_segment (m : Main) (r : Request) (s rest : Str) (hs : '/' ∉ s)
    (hp : r.Path = "/".toList ++ s ++ "/".toList ++ rest) :
    (∀ a, m.mountPaths.get? s = some a →
      m.getApp r = .ok (some a, { r with Path := "/".toList ++ rest }) ∧
      m.ServeHTTP r = .ok [.appServe a { r with Path := "/".toList ++ rest }] ∧
      "/".toList ++ s ++ ("/".toList ++ rest) = r.Path) ∧
    (m.mountPaths.get? s = none →
      m.getApp r = .ok (m.mountPaths.get? fallbackPath, r) ∧
      ∀ f, m.mountPaths.get? fallbackPath = some f → m.ServeHTTP r = .ok [.appServe f r]) := by
  have hp' : r.Path = '/' :: (s ++ '/' :: rest) := by rw [hp]; simp
  have hg := Main.getApp_segment m r s rest hs hp'
  constructor
  · intro a ha
    rw [ha] at hg
    refine ⟨hg, Main.ServeHTTP_of_getApp m r _ a hg, ?_⟩
    rw [hp]; simp
  · intro hnone
    rw [hnone] at hg
    refine ⟨hg, fun f hf => ?_⟩
    rw [hf] at hg
    exact Main.ServeHTTP_of_getApp m r r f hg

/-- C5 on the router with `admin` and the fallback mounted: `/admin/x` goes
to the admin application as `/x`, `/unknown/x` goes to the fallback unchanged. -/
theorem Main.routes_by_first_segment_witness :
    ('/' ∉ "admin".toList ∧
     twoApps.ServeHTTP ⟨GET, "/admin/x".toList, []⟩ =
       .ok [.appServe adminApp ⟨GET, "/x".toList, []⟩]) ∧
    ('/' ∉ "unknown".toList ∧
     twoApps.ServeHTTP ⟨GET, "/unknown/x".toList, []⟩ =
       .ok [.appServe publicApp ⟨GET, "/unknown/x".toList, []⟩]) :=
  ⟨⟨by decide, ((Main.routes_by_first_segment twoApps ⟨GET, "/admin/x".toList, []⟩
      "admin".toList "x".toList (by decide) rfl).1 adminApp rfl).2.1⟩,
   ⟨by decide, ((Main.routes_by_first_segment twoApps ⟨GET, "/unknown/x".toList, []⟩
      "unknown".toList "x".toList (by decide) rfl).2 rfl).2 publicApp rfl⟩⟩

/-- C6: for a URL path `/` + `s` with no `/` in `s`, `getApp` selects the
entry of the empty mount path and leaves the request unchanged, whether or
not `s` is a registered mount path; `Main.ServeHTTP` forwards the unchanged
request to the fallback application. -/
theorem Main.single_segment_to_fallback (m : Main) (r : Request) (s : Str) (hs : '/' ∉ s)
    (hp : r.Path = "/".toList ++ s) :
    m.getApp r = .ok (m.mountPaths.get? fallbackPath, r) ∧
    ∀ f, m.mountPaths.get? fallbackPath = some f → m.ServeHTTP r = .ok [.appServe f r] := by
  have hp' : r.Path = '/' :: s := by rw [hp]; simp
  have hg := Main.getApp_no_segment m r s hs hp'
  refine ⟨hg, fun f hf => ?_⟩
  rw [hf] at hg
  exact Main.ServeHTTP_of_getApp m r r f hg

/-- C6 on the router with `admin` and the fallback mounted: `/admin` goes to
the fallback application, not to the admin application. -/
theorem Main.single_segment_to_fallback_witness :
    '/' ∉ "admin".toList ∧ twoApps.mountPaths.get? "admin".toList = some adminApp ∧
    twoApps.ServeHTTP ⟨GET, "/admin".toList, []⟩ =
      .ok [.appServe publicApp ⟨GET, "/admin".toList, []⟩] :=
  ⟨by decide, rfl, (Main.single_segment_to_fallback twoApps ⟨GET, "/admin".toList, []⟩
    "admin".toList (by decide) rfl).2 publicApp rfl⟩

/-! ## C7: mounting applications -/

theorem Main.Add_cons (m : Main) (a : App) (rest : List App) :
    m.Add (a :: rest) =
      match m.mountPaths.get? a.MountPath with
      | some _ => .panicked m (.mountReserved a.MountPath)
      | none => Main.Add { m with mountPaths := m.mountPaths.set a.MountPath a } rest := by
  simp only [Main.Add]

/-- A panic-free `Main.Add` keeps every entry that was registered before. -/
theorem Main.Add_keeps (apps : List App) :
    ∀ (m : Main), (m.Add apps).isPanic = false →
      ∀ k b, m.mountPaths.get? k = some b → (m.Add apps).state.mountPaths.get? k = some b := by
  induction apps with
  | nil => intro m _ k b hk; simpa [Main.Add, Exec.state] using hk
  | cons a rest ih =>
    intro m hok k b hk
    rw [Main.Add_cons] at hok ⊢
    cases hg : m.mountPaths.get? a.MountPath with
    | some a2 => rw [hg] at hok; simp [Exec.isPanic] at hok
    | none =>
      rw [hg] at hok
      simp only at hok ⊢
      apply ih _ hok
      have hne : a.MountPath ≠ k := by
        intro h
        rw [h, hk] at hg
        simp at hg
      simp only [GoMap.get?_set, if_neg hne]
      exact hk

/-- A panic-free `Main.Add` leaves each application of the list registered
at its mount path. -/
theorem Main.Add_registers (apps : List App) :
    ∀ (m : Main), (m.Add apps).isPanic = false →
      ∀ a ∈ apps, (m.Add apps).state.mountPaths.get? a.MountPath = some a := by
  induction apps with
  | nil => intro m _ a ha; simp at ha
  | cons a0 rest ih =>
    intro m hok a ha
    have hok0 := hok
    rw [Main.Add_cons] at hok ⊢
    cases hg : m.mountPaths.get? a0.MountPath with
    | some a2 => rw [hg] at hok; simp [Exec.isPanic] at hok
    | none =>
      rw [hg] at hok
      simp only at hok ⊢
      rcases List.mem_cons.mp ha with rfl | hin
      · apply Main.Add_keeps rest _ hok
        simp [GoMap.get?_set]
      · exact ih _ hok a hin

/-- When `Main.Add` panics: some application of the list has a mount path
that is registered already or is the mount path of an earlier one. -/
theorem Main.Add_panics_iff_aux (apps : List App) :
    ∀ (m : Main), (m.Add apps).isPanic = true ↔
      ∃ pre a post, apps = pre ++ a :: post ∧
        ((m.mountPaths.get? a.MountPath).isSome = true ∨
          ∃ b ∈ pre, b.MountPath = a.MountPath) := by
  induction apps with
  | nil =>
    intro m
    simp [Main.Add, Exec.isPanic]
  | cons a0 rest ih =>
    intro m
    rw [Main.Add_cons]
    cases hg : m.mountPaths.get? a0.MountPath with
    | some a2 =>
      simp only [Exec.isPanic, true_iff]
      exact ⟨[], a0, rest, rfl, Or.inl (by rw [hg]; rfl)⟩
    | none =>
      simp only
      rw [ih]
      constructor
      · rintro ⟨pre, a, post, happ, hcond⟩
        refine ⟨a0 :: pre, a, post, by rw [happ]; rfl, ?_⟩
        rcases hcond with hreg | ⟨b, hb, hbe⟩
        · simp only [GoMap.get?_set] at hreg
          by_cases hk : a0.MountPath = a.MountPath
          · exact Or.inr ⟨a0, List.mem_cons_self _ _, hk⟩
          · rw [if_neg hk] at hreg
            exact Or.inl hreg
        · exact Or.inr ⟨b, List.mem_cons_of_mem _ hb, hbe⟩
      · rintro ⟨pre, a, post, happ, hcond⟩
        cases pre with
        | nil =>
          simp only [List.nil_append, List.cons.injEq] at happ
          obtain ⟨rfl, rfl⟩ := happ
          rcases hcond with hreg | ⟨b, hb, _⟩
          · rw [hg] at hreg; simp at hreg
          · simp at hb
        | cons p0 pre' =>
          simp only [List.cons_append, List.cons.injEq] at happ
          obtain ⟨rfl, rfl⟩ := happ
          refine ⟨pre', a, post, rfl, ?_⟩
          rcases hcond with hreg | ⟨b, hb, hbe⟩
          · left
            simp only [GoMap.get?_set]
            split_ifs
            · rfl
            · exact hreg
          · rcases List.mem_cons.mp hb with rfl | hin
            · left
              simp only [GoMap.get?_set, if_pos hbe]
              rfl
            · exact Or.inr ⟨b, hin, hbe⟩

/-- C7: `Main.Add(apps...)` panics if and only if some application of the
list has a mount path that is already registered or that is the mount path
of an earlier application of the list; when it does not panic, every
application of the list is afterwards the one registered at its mount path
and every entry registered before is still in place. -/
theorem Main.Add_panics_iff_collision (m : Main) (apps : List App) :
    ((m.Add apps).isPanic = true ↔
      ∃ pre a post, apps = pre ++ a :: post ∧
        ((m.mountPaths.get? a.MountPath).isSome = true ∨
          ∃ b ∈ pre, b.MountPath = a.MountPath)) ∧
    ((m.Add apps).isPanic = false →
      (∀ a ∈ apps, (m.Add apps).state.mountPaths.get? a.MountPath = some a) ∧
      (∀ k b, m.mountPaths.get? k = some b →
        (m.Add apps).state.mountPaths.get? k = some b)) :=
  ⟨Main.Add_panics_iff_aux apps m,
   fun hok => ⟨Main.Add_registers apps m hok, Main.Add_keeps apps m hok⟩⟩

/-- C7 on the empty router: adding the public and the admin application
registers both; adding the admin application twice panics. -/
theorem Main.Add_panics_iff_collision_witness :
    (New.Add [publicApp, adminApp]).isPanic = false ∧
    (New.Add [publicApp, adminApp]).state.mountPaths.get? adminApp.MountPath = some adminApp ∧
    (New.Add [adminApp, adminApp]).isPanic = true :=
  ⟨rfl,
   ((Main.Add_panics_iff_collision New [publicApp, adminApp]).2 rfl).1 adminApp
     (List.mem_cons_of_mem _ (List.mem_cons_self _ _)),
   (Main.Add_panics_iff_collision New [adminApp, adminApp]).1.mpr
     ⟨[adminApp], adminApp, [], rfl, Or.inr ⟨adminApp, List.mem_cons_self _ _, rfl⟩⟩⟩

/-! ## C8, C9: the admin gate -/

/-- C8: with both collaborators configured, a request for which
`Authenticate` resolves no identity gets status 403 and is not forwarded; a
request resolved to an identity with a non-empty ID is forwarded unchanged to
the wrapped dispatcher exactly when the gate's own authorizer allows
`EndPath{Method(r), r.URL.Path}` for that ID, whatever authorizer the identity
carried, and otherwise gets status 403 and is not forwarded. -/
theorem Admin.ServeHTTP_decides (a : Admin) (an : GoApp.Authenticator)
    (az : GoApp.Authorizer) (r : Request) (han : a.Authenticator = some an) (haz : a.Authorizer = some az) :
    (an.Authenticate r = none →
      (a.ServeHTTP r).2 = ⟨[.authenticate r, .writeHeader 403], none⟩) ∧
    (∀ u, an.Authenticate r = some u → u.ID ≠ [] →
      (az.Authorize ⟨Method r, r.Path⟩ u.ID = true →
        (a.ServeHTTP r).2 =
          ⟨[.authenticate r, .authorize ⟨Method r, r.Path⟩ u.ID, .forward r], none⟩) ∧
      (az.Authorize ⟨Method r, r.Path⟩ u.ID = false →
        (a.ServeHTTP r).2 =
          ⟨[.authenticate r, .authorize ⟨Method r, r.Path⟩ u.ID, .writeHeader 403], none⟩) ∧
      ((∃ r', GCall.forward r' ∈ (a.ServeHTTP r).2.calls) ↔
        az.Authorize ⟨Method r, r.Path⟩ u.ID = true)) := by
  constructor
  · intro hnone
    simp [Admin.ServeHTTP, han, haz, hnone, StatusForbidden]
  · intro u hu hid
    have ht : az.Authorize ⟨Method r, r.Path⟩ u.ID = true →
        (a.ServeHTTP r).2 =
          ⟨[.authenticate r, .authorize ⟨Method r, r.Path⟩ u.ID, .forward r], none⟩ := by
      intro h
      simp [Admin.ServeHTTP, han, haz, hu, User.Authorize, hid, h]
    have hf : az.Authorize ⟨Method r, r.Path⟩ u.ID = false →
        (a.ServeHTTP r).2 =
          ⟨[.authenticate r, .authorize ⟨Method r, r.Path⟩ u.ID, .writeHeader 403], none⟩ := by
      intro h
      simp [Admin.ServeHTTP, han, haz, hu, User.Authorize, hid, h, StatusForbidden]
    refine ⟨ht, hf, ?_⟩
    cases h : az.Authorize ⟨Method r, r.Path⟩ u.ID
    · rw [hf h]; simp
    · rw [ht h]; simp

/-- C8 on a gate whose authorizer allows everything, for an identity that
arrived carrying an authorizer that denies everything: the request is
forwarded. -/
theorem Admin.ServeHTTP_decides_witness :
    openAdmin.Authenticator = some knownAuthenticator ∧ openAdmin.Authorizer = some allowAll ∧
    (openAdmin.ServeHTTP ⟨GET, "/x".toList, []⟩).2 =
      ⟨[.authenticate ⟨GET, "/x".toList, []⟩,
        .authorize ⟨GET, "/x".toList⟩ "u1".toList,
        .forward ⟨GET, "/x".toList, []⟩], none⟩ :=
  ⟨rfl, rfl, ((Admin.ServeHTTP_decides openAdmin knownAuthenticator allowAll
    ⟨GET, "/x".toList, []⟩ rfl rfl).2 knownUser rfl (by decide)).1 rfl⟩

/-- C9: when the authenticator or the authorizer is not configured,
`Admin.ServeHTTP` panics having made no call at all: `Authenticate` is not
called, nothing is written to the response, nothing is forwarded, and the
gate is left as it was. -/
theorem Admin.ServeHTTP_unconfigured (a : Admin) (r : Request)
    (h : a.Authenticator = none ∨ a.Authorizer = none) :
    (a.ServeHTTP r).2.calls = [] ∧
    (a.ServeHTTP r).2.panic =
      some (.text (if a.Authenticator.isNone then "no authenticator set".toList
        else "no authorizer set".toList)) ∧
    (a.ServeHTTP r).1 = a := by
  unfold Admin.ServeHTTP
  cases han : a.Authenticator with
  | none => simp
  | some an =>
    cases haz : a.Authorizer with
    | none => simp
    | some az => rw [han, haz] at h; simp at h

/-- C9 on a gate with an authenticator but no authorizer. -/
theorem Admin.ServeHTTP_unconfigured_witness :
    (halfAdmin.Authenticator = none ∨ halfAdmin.Authorizer = none) ∧
    (halfAdmin.ServeHTTP ⟨GET, "/x".toList, []⟩).2.calls = [] ∧
    (halfAdmin.ServeHTTP ⟨GET, "/x".toList, []⟩).2.panic =
      some (.text "no authorizer set".toList) :=
  ⟨Or.inr rfl,
   (Admin.ServeHTTP_unconfigured halfAdmin ⟨GET, "/x".toList, []⟩ (Or.inr rfl)).1,
   (Admin.ServeHTTP_unconfigured halfAdmin ⟨GET, "/x".toList, []⟩ (Or.inr rfl)).2.1⟩

/-! ## C10: the response of a served request -/

theorem response_report (d : Dispatcher) (r : Request) (err : Option Error) :
    response (d.report r err) = [] := by
  unfold Dispatcher.report response
  cases err with
  | none => rfl
  | some e => cases d.ErrorHandler <;> rfl

theorem response_writes (chunks : List Str) :
    response (chunks.map (fun b => DCall.write (.bytes b))) =
      chunks.map (fun b => DCall.write (.bytes b)) := by
  unfold response
  induction chunks with
  | nil => rfl
  | cons c cs ih => simp [List.filter, DCall.isResponse, ih]

theorem Dispatcher.response_serveFound (d : Dispatcher) (s : Server) (wr : Writer) (r : Request)
    (hacc : isContentAccepted s.ContentType r = true) :
    response (d.serveFound s wr r) =
      [.headerSet "Content-Type".toList s.ContentType] ++
      (if (s.Serve r).1 ≠ 0 then [.writeHeader (s.Serve r).1] else []) ++
      ((s.Serve r).2.1 wr).1.map (fun b => .write (.bytes b)) := by
  have h1 := response_report d r (s.Serve r).2.2
  have h2 := response_report d r ((s.Serve r).2.1 wr).2
  have h3 := response_writes ((s.Serve r).2.1 wr).1
  unfold response at h1 h2 h3 ⊢
  unfold Dispatcher.serveFound
  simp only [hacc, Bool.not_true, Bool.false_eq_true, if_false, List.filter_append, h1, h2, h3]
  by_cases hs : (s.Serve r).1 = 0
  · simp [hs, List.filter, DCall.isResponse]
  · simp [hs, List.filter, DCall.isResponse]

/-- C10: for a request that matches a registered handler and passes content
negotiation, the response `Dispatcher.ServeHTTP` writes is: the Content-Type
header set to the handler's declared content type, then the status code,
written if and only if the returned status is nonzero, then what the
body-writer writes.  The handler's returned error does not occur in it: any
dispatcher and handler with the same content type, status and body-writer
give the same response. -/
theorem Dispatcher.response_of_served (d : Dispatcher) (wr : Writer) (r : Request) (s : Server)
    (hfound : (d.table (Method r)).get? r.Path = some s)
    (hacc : isContentAccepted s.ContentType r = true) :
    response (d.ServeHTTP wr r) =
      [.headerSet "Content-Type".toList s.ContentType] ++
      (if (s.Serve r).1 ≠ 0 then [.writeHeader (s.Serve r).1] else []) ++
      ((s.Serve r).2.1 wr).1.map (fun b => .write (.bytes b)) ∧
    ∀ (d2 : Dispatcher) (s2 : Server), (d2.table (Method r)).get? r.Path = some s2 →
      s2.ContentType = s.ContentType → (s2.Serve r).1 = (s.Serve r).1 →
      (s2.Serve r).2.1 = (s.Serve r).2.1 →
      response (d2.ServeHTTP wr r) = response (d.ServeHTTP wr r) := by
  have hd : d.ServeHTTP wr r = d.serveFound s wr r := by
    simp only [Dispatcher.ServeHTTP, hfound]
  refine ⟨by rw [hd]; exact Dispatcher.response_serveFound d s wr r hacc, ?_⟩
  intro d2 s2 hfound2 hct hst hwt
  have hd2 : d2.ServeHTTP wr r = d2.serveFound s2 wr r := by
    simp only [Dispatcher.ServeHTTP, hfound2]
  rw [hd, hd2, Dispatcher.response_serveFound d s wr r hacc,
    Dispatcher.response_serveFound d2 s2 wr r (by rw [hct]; exact hacc), hct, hst, hwt]

/-- C10 on the HTML handler at `/x`: the response is the Content-Type
header and the body `ok`, with no status written (the status is 0). -/
theorem Dispatcher.response_of_served_witness :
    (oneRoute.table (Method ⟨GET, "/x".toList, []⟩)).get? "/x".toList = some pageServer ∧
    isContentAccepted pageServer.ContentType ⟨GET, "/x".toList, []⟩ = true ∧
    response (oneRoute.ServeHTTP okWriter ⟨GET, "/x".toList, []⟩) =
      [.headerSet "Content-Type".toList "text/html; charset=utf-8".toList,
       .write (.bytes "ok".toList)] :=
  ⟨rfl, rfl, (Dispatcher.response_of_served oneRoute okWriter ⟨GET, "/x".toList, []⟩
    pageServer rfl rfl).1⟩

/-! ## C11: the error callback -/

theorem errorCalls_report (d : Dispatcher) (r : Request) (err : Option Error)
    (heh : d.ErrorHandler = true) : errorCalls (d.report r err) = errorCall r err := by
  unfold Dispatcher.report errorCalls errorCall
  cases err with
  | none => rfl
  | some e => simp [heh, DCall.isErrorHandler]

theorem errorCalls_writes (chunks : List Str) :
    errorCalls (chunks.map (fun b => DCall.write (.bytes b))) = [] := by
  unfold errorCalls
  induction chunks with
  | nil => rfl
  | cons c cs ih => simp [List.filter, DCall.isErrorHandler, ih]

theorem Dispatcher.errorCalls_serveFound (d : Dispatcher) (s : Server) (wr : Writer)
    (r : Request) (heh : d.ErrorHandler = true)
    (hacc : isContentAccepted s.ContentType r = true) :
    errorCalls (d.serveFound s wr r) =
      errorCall r (s.Serve r).2.2 ++ errorCall r ((s.Serve r).2.1 wr).2 := by
  have h1 := errorCalls_report d r (s.Serve r).2.2 heh
  have h2 := errorCalls_report d r ((s.Serve r).2.1 wr).2 heh
  have h3 := errorCalls_writes ((s.Serve r).2.1 wr).1
  unfold errorCalls at h1 h2 h3 ⊢
  unfold Dispatcher.serveFound
  simp only [hacc, Bool.not_true, Bool.false_eq_true, if_false, List.filter_append, h1, h2, h3]
  by_cases hs : (s.Serve r).1 = 0
  · simp [hs, List.filter, DCall.isErrorHandler]
  · simp [hs, List.filter, DCall.isErrorHandler]

/-- C11: with an error callback configured, the invocations of the callback
during `Dispatcher.ServeHTTP` are: one for a non-nil handler error, then one
for a non-nil body-write error, when the request matches a route and passes
content negotiation; none when the content type is refused with 417, and none
when no route matches. -/
theorem Dispatcher.error_callback_calls (d : Dispatcher) (wr : Writer) (r : Request)
    (heh : d.ErrorHandler = true) :
    (∀ s, (d.table (Method r)).get? r.Path = some s →
      isContentAccepted s.ContentType r = true →
      errorCalls (d.ServeHTTP wr r) =
        errorCall r (s.Serve r).2.2 ++ errorCall r ((s.Serve r).2.1 wr).2) ∧
    (∀ s, (d.table (Method r)).get? r.Path = some s →
      isContentAccepted s.ContentType r = false → errorCalls (d.ServeHTTP wr r) = []) ∧
    ((d.table (Method r)).get? r.Path = none → errorCalls (d.ServeHTTP wr r) = []) := by
  refine ⟨?_, ?_, ?_⟩
  · intro s hfound hacc
    have hd : d.ServeHTTP wr r = d.serveFound s wr r := by
      simp only [Dispatcher.ServeHTTP, hfound]
    rw [hd]
    exact Dispatcher.errorCalls_serveFound d s wr r heh hacc
  · intro s hfound hrej
    simp [Dispatcher.ServeHTTP, hfound, Dispatcher.serveFound, hrej, errorCalls,
      DCall.isErrorHandler]
  · intro hnone
    simp only [Dispatcher.ServeHTTP, hnone, Dispatcher.serveNotFound]
    cases d.NotFound <;> simp [errorCalls, DCall.isErrorHandler]

/-- C11 on a handler that fails and whose body-writer fails: the callback is
invoked with the handler error, then with the write error. -/
theorem Dispatcher.error_callback_calls_witness :
    failingRoute.ErrorHandler = true ∧
    errorCalls (failingRoute.ServeHTTP okWriter ⟨GET, "/x".toList, []⟩) =
      [.errorHandler ⟨GET, "/x".toList, []⟩ "boom".toList,
       .errorHandler ⟨GET, "/x".toList, []⟩ "closed".toList] ∧
    errorCalls (failingRoute.ServeHTTP okWriter ⟨GET, "/y".toList, []⟩) = [] :=
  ⟨rfl,
   (Dispatcher.error_callback_calls failingRoute okWriter ⟨GET, "/x".toList, []⟩ rfl).1
     failingServer rfl rfl,
   (Dispatcher.error_callback_calls failingRoute okWriter ⟨GET, "/y".toList, []⟩ rfl).2.2 rfl⟩

/-! ## C12: unrecognized methods -/

theorem Method_other (r : Request)
    (h : r.Method ∉ [GET, POST, PUT, PATCH, DELETE]) : Method r = GET := by
  simp only [List.mem_cons, List.mem_singleton, List.not_mem_nil, or_false, not_or] at h
  obtain ⟨a1, a2, a3, a4, a5⟩ := h
  simp [Method, a1, a2, a3, a4, a5]

theorem Dispatcher.table_GET (d : Dispatcher) : d.table GET = d.get := by
  simp [Dispatcher.table]

theorem Dispatcher.Add_other (d : Dispatcher) (m : method) (path : Str) (s : Server)
    (h : m ∉ [GET, POST, PUT, PATCH, DELETE]) : d.Add m path s = d.Add GET path s := by
  simp only [List.mem_cons, List.mem_singleton, List.not_mem_nil, or_false, not_or] at h
  obtain ⟨a1, a2, a3, a4, a5⟩ := h
  simp [Dispatcher.Add, a1, a2, a3, a4, a5]

/-- C12: `Method` returns the request's method when it is one of GET, POST,
PUT, PATCH, DELETE and GET for every other string.  So a request with an
unrecognized method is looked up in the GET table, selects the handler the
same request with method GET selects and takes the same branch with it, and
the two responses are the same whenever the selected handler answers the two
requests alike; and `Add` with a method outside the five is `Add` with GET:
same panic, same resulting dispatcher. -/
theorem Method_unrecognized_is_GET :
    (∀ r : Request, r.Method ∈ [GET, POST, PUT, PATCH, DELETE] → Method r = r.Method) ∧
    (∀ r : Request, r.Method ∉ [GET, POST, PUT, PATCH, DELETE] → Method r = GET) ∧
    (∀ (d : Dispatcher) (wr : Writer) (r : Request),
      r.Method ∉ [GET, POST, PUT, PATCH, DELETE] →
      (d.table (Method r)).get? r.Path = (d.table (Method { r with Method := GET })).get? r.Path ∧
      d.ServeHTTP wr r =
        (match d.get.get? r.Path with
         | some s => d.serveFound s wr r
         | none => d.serveNotFound r) ∧
      d.ServeHTTP wr { r with Method := GET } =
        (match d.get.get? r.Path with
         | some s => d.serveFound s wr { r with Method := GET }
         | none => d.serveNotFound { r with Method := GET }) ∧
      ((∀ s, d.get.get? r.Path = some s → s.Serve r = s.Serve { r with Method := GET }) →
        response (d.ServeHTTP wr r) = response (d.ServeHTTP wr { r with Method := GET }))) ∧
    (∀ (d : Dispatcher) (m : method) (path : Str) (s : Server),
      m ∉ [GET, POST, PUT, PATCH, DELETE] → d.Add m path s = d.Add GET path s) := by
  refine ⟨fun r h => ?_, Method_other, ?_, Dispatcher.Add_other⟩
  · rw [Method_eq_methodOf]
    exact methodOf_five r.Method h
  · intro d wr r h
    have h1 : Method r = GET := Method_other r h
    have h2 : Method { r with Method := GET } = GET := by simp [Method]
    have e1 : d.ServeHTTP wr r =
        (match d.get.get? r.Path with
         | some s => d.serveFound s wr r
         | none => d.serveNotFound r) := by
      simp only [Dispatcher.ServeHTTP, h1, Dispatcher.table_GET]
    have e2 : d.ServeHTTP wr { r with Method := GET } =
        (match d.get.get? r.Path with
         | some s => d.serveFound s wr { r with Method := GET }
         | none => d.serveNotFound { r with Method := GET }) := by
      simp only [Dispatcher.ServeHTTP, h2, Dispatcher.table_GET]
    refine ⟨by rw [h1, h2], e1, e2, ?_⟩
    intro hsame
    rw [e1, e2]
    cases hg : d.get.get? r.Path with
    | none =>
      simp only [Dispatcher.serveNotFound]
      cases d.NotFound <;> simp [response, DCall.isResponse]
    | some s =>
      simp only
      have hs := hsame s hg
      have hacc : isContentAccepted s.ContentType { r with Method := GET } =
          isContentAccepted s.ContentType r := by
        simp [isContentAccepted]
      cases ha : isContentAccepted s.ContentType r with
      | true =>
        rw [Dispatcher.response_serveFound d s wr r ha,
          Dispatcher.response_serveFound d s wr _ (by rw [hacc]; exact ha), hs]
      | false =>
        simp [Dispatcher.serveFound, ha, hacc]

/-- C12 on a HEAD request to `/x`, served by the GET route, and on an `Add`
under the method HEAD, which files the handler in the GET table. -/
theorem Method_unrecognized_is_GET_witness :
    Method ⟨"HEAD".toList, "/x".toList, []⟩ = GET ∧
    oneRoute.ServeHTTP okWriter ⟨"HEAD".toList, "/x".toList, []⟩ =
      oneRoute.serveFound pageServer okWriter ⟨"HEAD".toList, "/x".toList, []⟩ ∧
    NewDispatcher.Add "HEAD".toList "/x".toList pageServer = .done oneRoute :=
  ⟨Method_unrecognized_is_GET.2.1 ⟨"HEAD".toList, "/x".toList, []⟩ (by decide),
   (Method_unrecognized_is_GET.2.2.1 oneRoute okWriter ⟨"HEAD".toList, "/x".toList, []⟩
     (by decide)).2.1,
   (Method_unrecognized_is_GET.2.2.2 NewDispatcher "HEAD".toList "/x".toList pageServer
     (by decide)).trans rfl⟩

/-! ## C13: empty HTML results -/

/-- C13, as stated, fails for a result that streams its own bytes: a page
whose `HTML()` text is empty but whose type implements `io.WriterTo` has its
own `WriteTo` used, so the body is what that writes and not `Page not found`. -/
theorem HTMLServer.empty_html_streamed :
    streamingPage.HTML = [] ∧
    (HTMLServer.Serve streamingServer ⟨GET, "/".toList, []⟩).2.1 okWriter =
      (["<p>streamed</p>".toList], none) ∧
    (HTMLServer.Serve streamingServer ⟨GET, "/".toList, []⟩).2.1 okWriter ≠
      (["Page not found".toList], none) := by
  refine ⟨rfl, rfl, ?_⟩
  intro h
  have h2 : (HTMLServer.Serve streamingServer ⟨GET, "/".toList, []⟩).2.1 okWriter =
      (["<p>streamed</p>".toList], none) := rfl
  rw [h2] at h
  revert h
  decide

/-- C13, amended: when the business function returns a nil result, or a
result that does not itself implement `io.WriterTo` and whose `HTML()` text
is empty, the body-writer `HTMLServer.Serve` returns writes exactly the text
`Page not found` (and returns the error of that write), the declared content
type is `text/html; charset=utf-8`, and the status and the error returned
are the ones the business function returned. -/
theorem HTMLServer.Serve_page_not_found (h : HTMLServer) (r : Request)
    (hempty : (h r).2.1 = none ∨
      ∃ ht, (h r).2.1 = some ht ∧ ht.WriterTo = none ∧ ht.HTML = []) :
    (∀ wr : Writer, (HTMLServer.Serve h r).2.1 wr =
      (["Page not found".toList], wr "Page not found".toList)) ∧
    HTMLServer.ContentType h = "text/html; charset=utf-8".toList ∧
    (HTMLServer.Serve h r).1 = (h r).1 ∧
    (HTMLServer.Serve h r).2.2 = (h r).2.2 := by
  rcases hr : h r with ⟨s, ht0, err⟩
  rw [hr] at hempty
  simp only at hempty
  have hw : ∀ wr : Writer, (HTMLServer.Serve h r).2.1 wr =
      (["Page not found".toList], wr "Page not found".toList) ∧
      (HTMLServer.Serve h r).1 = s ∧ (HTMLServer.Serve h r).2.2 = err := by
    intro wr
    rcases hempty with hnil | ⟨ht, hsome, hwt, hhtml⟩
    · subst hnil
      simp [HTMLServer.Serve, hr, writeText]
    · subst hsome
      simp [HTMLServer.Serve, hr, hwt, hhtml, writeText]
  exact ⟨fun wr => (hw wr).1, rfl, (hw okWriter).2.1, (hw okWriter).2.2⟩

/-- C13, amended, on a business function answering a nil page. -/
theorem HTMLServer.Serve_page_not_found_witness :
    (nilPageServer ⟨GET, "/".toList, []⟩).2.1 = none ∧
    (HTMLServer.Serve nilPageServer ⟨GET, "/".toList, []⟩).2.1 okWriter =
      (["Page not found".toList], none) ∧
    (HTMLServer.Serve nilPageServer ⟨GET, "/".toList, []⟩).1 = 0 :=
  ⟨rfl,
   (HTMLServer.Serve_page_not_found nilPageServer ⟨GET, "/".toList, []⟩ (Or.inl rfl)).1 okWriter,
   (HTMLServer.Serve_page_not_found nilPageServer ⟨GET, "/".toList, []⟩ (Or.inl rfl)).2.2.1⟩

/-! ## C14: listed routes -/

/-- C14 at the route `/` of a dispatcher mounted at `admin`: `GETRoutes`
lists it as `/admin`, which has the prefix `/admin`, but a GET request to
`/admin` is forwarded by `Main.ServeHTTP` to the fallback application with
the path `/admin`, not to the application at `admin`; the request that does
reach the route is the one to `/admin/`, rewritten to `/`. -/
theorem Dispatcher.GETRoutes_root_not_routed :
    rootRoute.GETRoutes "admin".toList = ["/admin".toList] ∧
    twoApps.mountPaths.get? "admin".toList = some adminApp ∧
    twoApps.ServeHTTP ⟨GET, "/admin".toList, []⟩ =
      .ok [.appServe publicApp ⟨GET, "/admin".toList, []⟩] ∧
    twoApps.ServeHTTP ⟨GET, "/admin/".toList, []⟩ =
      .ok [.appServe adminApp ⟨GET, "/".toList, []⟩] ∧
    (rootRoute.table GET).get? "/".toList = some pageServer ∧
    ((rootRoute.table GET).get? "/admin".toList).isSome = false := by
  refine ⟨by decide, rfl, rfl, rfl, rfl, rfl⟩

/-! ## C15: the protected file server and the admin gate -/

/-- C15 at a gate whose authenticator resolves no identity and whose
authorizer is not configured: `Admin.ServeHTTP` panics before calling
`Authenticate`, while `protected.ServeHTTP` calls `Authenticate` and answers
403 without a panic. -/
theorem Protected.ServeHTTP_differs_from_Admin :
    anonymousAdmin.Authenticator = anonymousFiles.authenticator ∧
    anonymousAdmin.Authorizer = none ∧ anonymousFiles.authorizer = none ∧
    (anonymousAdmin.ServeHTTP ⟨GET, "/x".toList, []⟩).2 =
      ⟨[], some (.text "no authorizer set".toList)⟩ ∧
    anonymousFiles.ServeHTTP ⟨GET, "/x".toList, []⟩ =
      ⟨[.authenticate ⟨GET, "/x".toList, []⟩, .writeHeader 403], none⟩ := by
  exact ⟨rfl, rfl, rfl, rfl, rfl⟩

/-- With both collaborators configured the protected file server and the
admin gate make the same run. -/
theorem Protected.ServeHTTP_eq_Admin_configured (a : Admin) (p : Protected)
    (an : Authenticator) (az : Authorizer) (r : Request)
    (han : a.Authenticator = some an) (haz : a.Authorizer = some az)
    (hpn : p.authenticator = some an) (hpz : p.authorizer = some az) :
    p.ServeHTTP r = (a.ServeHTTP r).2 := by
  cases hu : an.Authenticate r with
  | none => simp [Protected.ServeHTTP, Admin.ServeHTTP, han, haz, hpn, hpz, hu]
  | some u =>
    by_cases hid : u.ID = []
    · simp [Protected.ServeHTTP, Admin.ServeHTTP, han, haz, hpn, hpz, hu, User.Authorize, hid]
    · cases h : az.Authorize ⟨Method r, r.Path⟩ u.ID <;>
        simp [Protected.ServeHTTP, Admin.ServeHTTP, han, haz, hpn, hpz, hu, User.Authorize,
          hid, h]

/-! ## C16, C17: the empty path and `Override` -/

theorem routePath_ne_nil (path : Str) : routePath path ≠ [] := by
  unfold routePath
  split_ifs with h
  · decide
  · exact h

theorem routePath_nil : routePath [] = "/".toList := rfl

theorem routePath_root : routePath "/".toList = "/".toList := rfl

theorem GoMap.mem_keys_iff {β : Type} (m : GoMap β) (k : Str) :
    k ∈ m.keys ↔ (m.get? k).isSome = true := by
  induction m with
  | nil => simp [GoMap.keys, GoMap.get?]
  | cons e rest ih =>
    obtain ⟨k', v⟩ := e
    have hkeys : GoMap.keys ((k', v) :: rest) = k' :: GoMap.keys rest := rfl
    rw [hkeys, List.mem_cons, ih]
    by_cases hk : k' = k
    · have hg : GoMap.get? ((k', v) :: rest) k = some v := by
        simp only [GoMap.get?, hk, if_true]
      rw [hg]
      exact ⟨fun _ => rfl, fun _ => Or.inl hk.symm⟩
    · have hg : GoMap.get? ((k', v) :: rest) k = GoMap.get? rest k := by
        simp only [GoMap.get?, hk, if_false]
      rw [hg]
      constructor
      · rintro (h | h)
        · exact absurd h.symm hk
        · exact h
      · exact fun h => Or.inr h

theorem Dispatcher.Add_state (d : Dispatcher) (m : method) (path : Str) (s : Server) :
    (d.Add m path s).state = d ∨ (d.Add m path s).state = d.Override m path s := by
  rw [Dispatcher.Add_eq]
  cases (d.table m).get? (routePath path) with
  | none => exact Or.inr rfl
  | some s2 => exact Or.inl rfl

theorem Dispatcher.table_fields (d : Dispatcher) (nf : Option Handler) (eh : Bool)
    (M : method) : ({ d with NotFound := nf, ErrorHandler := eh } : Dispatcher).table M =
      d.table M := by
  unfold Dispatcher.table
  split_ifs <;> rfl

/-- No table of a reachable dispatcher holds a handler at the empty path. -/
theorem Dispatcher.Reachable.no_empty_key (d : Dispatcher) (h : Dispatcher.Reachable d) :
    ∀ M : method, (d.table M).get? [] = none := by
  induction h with
  | new =>
    intro M
    unfold Dispatcher.table NewDispatcher
    split_ifs <;> rfl
  | add d m path s _ ih =>
    intro M
    rcases Dispatcher.Add_state d m path s with h | h
    · rw [h]; exact ih M
    · rw [h, Dispatcher.Override_table]
      have hne : ¬ (methodOf m = methodOf M ∧ routePath path = []) :=
        fun hc => routePath_ne_nil path hc.2
      rw [if_neg hne]
      exact ih M
  | override d m path s _ ih =>
    intro M
    rw [Dispatcher.Override_table]
    have hne : ¬ (methodOf m = methodOf M ∧ routePath path = []) :=
      fun hc => routePath_ne_nil path hc.2
    rw [if_neg hne]
    exact ih M
  | fields d nf eh _ ih =>
    intro M
    rw [Dispatcher.table_fields]
    exact ih M

/-- C16: `Add` and `Override` with the empty path are `Add` and `Override`
with `/` (same panic, same resulting dispatcher); so in a dispatcher reachable
from `NewDispatcher` through `Add` and `Override` no route table has the
empty string as a key, and a request whose URL path is the empty string
matches no route: it gets the not-found behaviour. -/
theorem Dispatcher.empty_path_is_root :
    (∀ (d : Dispatcher) (m : method) (s : Server),
      d.Add m [] s = d.Add m "/".toList s ∧ d.Override m [] s = d.Override m "/".toList s) ∧
    (∀ d : Dispatcher, Dispatcher.Reachable d →
      ([] ∉ d.get.keys ∧ [] ∉ d.post.keys ∧ [] ∉ d.put.keys ∧ [] ∉ d.del.keys ∧
        [] ∉ d.patch.keys) ∧
      ∀ (wr : Writer) (r : Request), r.Path = [] →
        (d.table (Method r)).get? r.Path = none ∧ d.ServeHTTP wr r = d.serveNotFound r) := by
  obtain ⟨h1, h2, h3, h4, h5, h6, h7, h8, h9, h10⟩ := methods_distinct
  constructor
  · intro d m s
    exact ⟨rfl, rfl⟩
  · intro d hd
    have hno := Dispatcher.Reachable.no_empty_key d hd
    have key : ∀ (t : GoMap Server), t.get? [] = none → [] ∉ t.keys := by
      intro t ht hmem
      rw [GoMap.mem_keys_iff, ht] at hmem
      simp at hmem
    refine ⟨⟨key _ ?_, key _ ?_, key _ ?_, key _ ?_, key _ ?_⟩, ?_⟩
    · have := hno GET
      simpa [Dispatcher.table] using this
    · have := hno POST
      simpa [Dispatcher.table, h1.symm] using this
    · have := hno PUT
      simpa [Dispatcher.table, h2.symm, h5.symm] using this
    · have := hno DELETE
      simpa [Dispatcher.table, h3.symm, h6.symm, h8.symm] using this
    · have := hno PATCH
      simpa [Dispatcher.table, h4.symm, h7.symm, h9.symm, h10.symm] using this
    · intro wr r hp
      have hl : (d.table (Method r)).get? r.Path = none := by
        rw [hp]; exact hno (Method r)
      exact ⟨hl, by simp only [Dispatcher.ServeHTTP, hl]⟩

/-- C16 on the dispatcher built by `Add(GET, "", pageServer)`: it is
reachable, and a GET request with an empty URL path gets `http.NotFound`. -/
theorem Dispatcher.empty_path_is_root_witness :
    (NewDispatcher.Add GET [] pageServer).state = rootRoute ∧
    [] ∉ rootRoute.get.keys ∧
    rootRoute.ServeHTTP okWriter ⟨GET, [], []⟩ = rootRoute.serveNotFound ⟨GET, [], []⟩ :=
  ⟨rfl,
   (Dispatcher.empty_path_is_root.2 rootRoute
     (Dispatcher.Reachable.add NewDispatcher GET [] pageServer Dispatcher.Reachable.new)).1.1,
   ((Dispatcher.empty_path_is_root.2 rootRoute
     (Dispatcher.Reachable.add NewDispatcher GET [] pageServer Dispatcher.Reachable.new)).2
       okWriter ⟨GET, [], []⟩ rfl).2⟩

/-- C17: `Override(m, p, s)` is a total function of the dispatcher (it has no
panic); afterwards the table of `m` holds `s` at `routePath p` (`p`, or `/`
for the empty `p`; the GET table for `m` outside the five), whether or not the
key was occupied before; every other (method, path) entry of every table is
as before, and so are the `NotFound` handler and the error callback. -/
theorem Dispatcher.Override_sets_only (d : Dispatcher) (m : method) (p : Str) (s : Server) :
    ((d.Override m p s).table m).get? (routePath p) = some s ∧
    ((d.Override m p s).table (methodOf m)).get? (routePath p) = some s ∧
    (∀ (M : method) (q : Str), ¬ (methodOf M = methodOf m ∧ q = routePath p) →
      ((d.Override m p s).table M).get? q = (d.table M).get? q) ∧
    (d.Override m p s).NotFound = d.NotFound ∧
    (d.Override m p s).ErrorHandler = d.ErrorHandler := by
  have hself : ((d.Override m p s).table m).get? (routePath p) = some s := by
    rw [Dispatcher.Override_table, if_pos ⟨rfl, rfl⟩]
  refine ⟨hself, ?_, ?_, (Dispatcher.Override_fields d m p s).1,
    (Dispatcher.Override_fields d m p s).2⟩
  · rw [Dispatcher.table_methodOf]
    exact hself
  · intro M q hne
    rw [Dispatcher.Override_table]
    have hc : ¬ (methodOf m = methodOf M ∧ routePath p = q) :=
      fun hc => hne ⟨hc.1.symm, hc.2.symm⟩
    rw [if_neg hc]

/-- C17 on the dispatcher with a GET handler at `/`: `Override` with the
method HEAD and the empty path replaces that handler. -/
theorem Dispatcher.Override_sets_only_witness :
    (rootRoute.table GET).get? "/".toList = some pageServer ∧
    ((rootRoute.Override "HEAD".toList [] failingServer).table GET).get? "/".toList =
      some failingServer :=
  ⟨rfl, (Dispatcher.Override_sets_only rootRoute "HEAD".toList [] failingServer).2.1⟩

/-! ## C18, C19: slicing in `getApp` -/

theorem first_slash (s : Str) :
    '/' ∉ s ∨ ∃ pre rest, s = pre ++ '/' :: rest ∧ '/' ∉ pre := by
  induction s with
  | nil => exact Or.inl (by simp)
  | cons c cs ih =>
    by_cases hc : c = '/'
    · exact Or.inr ⟨[], cs, by simp [hc], by simp⟩
    · rcases ih with h | ⟨pre, rest, hs, hpre⟩
      · left
        intro hmem
        rcases List.mem_cons.mp hmem with h' | h'
        · exact hc h'.symm
        · exact h h'
      · right
        refine ⟨c :: pre, rest, by rw [hs]; rfl, ?_⟩
        intro hmem
        rcases List.mem_cons.mp hmem with h' | h'
        · exact hc h'.symm
        · exact hpre h'

theorem Main.getApp_segment_after (m : Main) (r : Request) (c : Char) (s rest : Str)
    (hs : '/' ∉ s) (hp : r.Path = c :: (s ++ '/' :: rest)) :
    m.getApp r =
      match m.mountPaths.get? s with
      | some a => .ok (some a, { r with Path := '/' :: rest })
      | none => .ok (m.mountPaths.get? fallbackPath, r) := by
  have hidx : Index (s ++ '/' :: rest) "/".toList = (s.length : Int) := by
    unfold Index
    rw [IndexFrom_slash_first s rest 0 hs]
    simp
  have hn : ((s.length : Int) + 1).toNat = s.length + 1 := by omega
  have hlen : r.Path.length = s.length + rest.length + 2 := by
    rw [hp]; simp; omega
  have h1 : sliceFrom r.Path 1 = .ok (s ++ '/' :: rest) := by
    have hc : (0 : Int) ≤ 1 ∧ (1 : Int) ≤ (r.Path.length : Int) := by omega
    rw [sliceFrom, if_pos hc, hp]
    rfl
  have h2 : slice r.Path 1 ((s.length : Int) + 1) = .ok s := by
    have hc : (0 : Int) ≤ 1 ∧ (1 : Int) ≤ (s.length : Int) + 1 ∧
        (s.length : Int) + 1 ≤ (r.Path.length : Int) := by omega
    rw [slice, if_pos hc, hn, hp]
    simp
  have h3 : sliceFrom r.Path ((s.length : Int) + 1) = .ok ('/' :: rest) := by
    have hc : (0 : Int) ≤ (s.length : Int) + 1 ∧
        (s.length : Int) + 1 ≤ (r.Path.length : Int) := by omega
    rw [sliceFrom, if_pos hc, hn, hp]
    simp
  have hne : ¬ ((s.length : Int) = -1) := by omega
  unfold Main.getApp
  simp only [h1, hidx, h2, h3, hne, bind, Except.bind, if_false]
  cases m.mountPaths.get? s <;> rfl

theorem Main.getApp_no_segment_after (m : Main) (r : Request) (c : Char) (s : Str)
    (hs : '/' ∉ s) (hp : r.Path = c :: s) :
    m.getApp r = .ok (m.mountPaths.get? fallbackPath, r) := by
  have hidx : Index s "/".toList = -1 := IndexFrom_slash_absent s 0 hs
  have h1 : sliceFrom r.Path 1 = .ok s := by
    have hc : (0 : Int) ≤ 1 ∧ (1 : Int) ≤ (r.Path.length : Int) := by
      rw [hp]; simp
    rw [sliceFrom, if_pos hc, hp]
    rfl
  unfold Main.getApp
  simp only [h1, hidx, bind, Except.bind, if_true]
  rfl

theorem Main.getApp_empty_path (m : Main) (r : Request) (hp : r.Path = []) :
    m.getApp r = .error .sliceOutOfRange := by
  have h1 : sliceFrom r.Path 1 = .error .sliceOutOfRange := by
    rw [sliceFrom, hp]
    simp
  unfold Main.getApp
  simp only [h1, bind, Except.bind]

/-- C18: for a request whose URL path has at least one character `getApp`
returns (no slice is out of range), and the path it leaves is either the
original path or a suffix of it that begins with `/`; for a request whose URL
path is the empty string the slice `r.URL.Path[1:]` is out of range, so
`getApp` and with it `Main.ServeHTTP` panic. -/
theorem Main.getApp_slices_in_range (m : Main) (r : Request) :
    (1 ≤ r.Path.length →
      ∃ (a : Option App) (r1 : Request), m.getApp r = .ok (a, r1) ∧
        r1.Method = r.Method ∧ r1.Accept = r.Accept ∧
        (r1.Path = r.Path ∨
          ∃ pre rest, r.Path = pre ++ r1.Path ∧ r1.Path = '/' :: rest)) ∧
    (r.Path = [] →
      m.getApp r = .error .sliceOutOfRange ∧ m.ServeHTTP r = .error .sliceOutOfRange) := by
  constructor
  · intro hlen
    cases hp : r.Path with
    | nil => rw [hp] at hlen; simp at hlen
    | cons c tail =>
      rcases first_slash tail with hno | ⟨s, rest, htail, hs⟩
      · exact ⟨_, r, Main.getApp_no_segment_after m r c tail hno hp, rfl, rfl, Or.inl hp⟩
      · have hp' : r.Path = c :: (s ++ '/' :: rest) := by rw [hp, htail]
        have hg := Main.getApp_segment_after m r c s rest hs hp'
        cases hl : m.mountPaths.get? s with
        | none =>
          rw [hl] at hg
          exact ⟨_, r, hg, rfl, rfl, Or.inl hp⟩
        | some a =>
          rw [hl] at hg
          refine ⟨_, _, hg, rfl, rfl, Or.inr ⟨c :: s, rest, ?_, rfl⟩⟩
          rw [htail]
          simp
  · intro hp
    have hg := Main.getApp_empty_path m r hp
    refine ⟨hg, ?_⟩
    simp only [Main.ServeHTTP, hg, bind, Except.bind]

/-- C18 on the router with `admin` and the fallback mounted: a request to
`/admin/x` is rewritten to the suffix `/x`; a request with an empty URL path
makes `Main.ServeHTTP` panic. -/
theorem Main.getApp_slices_in_range_witness :
    (1 ≤ ("/admin/x".toList).length ∧
      ∃ (a : Option App) (r1 : Request),
        twoApps.getApp ⟨GET, "/admin/x".toList, []⟩ = .ok (a, r1) ∧
        r1.Method = GET ∧ r1.Accept = [] ∧
        (r1.Path = "/admin/x".toList ∨
          ∃ pre rest, "/admin/x".toList = pre ++ r1.Path ∧ r1.Path = '/' :: rest)) ∧
    twoApps.ServeHTTP ⟨GET, [], []⟩ = .error .sliceOutOfRange :=
  ⟨⟨by decide, (Main.getApp_slices_in_range twoApps ⟨GET, "/admin/x".toList, []⟩).1
      (by decide)⟩,
   ((Main.getApp_slices_in_range twoApps ⟨GET, [], []⟩).2 rfl).2⟩

/-- C19: with a fallback application registered, a request whose URL path is
`/` + `/` + `rest` is forwarded to the fallback application with its URL path
rewritten to `/` + `rest`: the empty first segment is the fallback's own
mount path. -/
theorem Main.double_slash_rewritten (m : Main) (r : Request) (rest : Str) (f : App)
    (hf : m.mountPaths.get? fallbackPath = some f)
    (hp : r.Path = "/".toList ++ "/".toList ++ rest) :
    m.getApp r = .ok (some f, { r with Path := "/".toList ++ rest }) ∧
    m.ServeHTTP r = .ok [.appServe f { r with Path := "/".toList ++ rest }] := by
  have hp' : r.Path = '/' :: ([] ++ '/' :: rest) := by rw [hp]; rfl
  have hg := Main.getApp_segment m r [] rest (by simp) hp'
  have hf' : m.mountPaths.get? [] = some f := hf
  rw [hf'] at hg
  exact ⟨hg, Main.ServeHTTP_of_getApp m r _ f hg⟩

/-- C19 on the router with `admin` and the fallback mounted: `//x` reaches
the fallback application as `/x`. -/
theorem Main.double_slash_rewritten_witness :
    twoApps.mountPaths.get? fallbackPath = some publicApp ∧
    twoApps.ServeHTTP ⟨GET, "//x".toList, []⟩ =
      .ok [.appServe publicApp ⟨GET, "/x".toList, []⟩] :=
  ⟨rfl, (Main.double_slash_rewritten twoApps ⟨GET, "//x".toList, []⟩ "x".toList publicApp
    rfl rfl).2⟩

/-! ## C20: identities without an ID -/

/-- C20: when the authenticator of a gate returns an identity with an empty
ID, `ServeHTTP` panics with `ID not set` right after `Authenticate`: no
`Authorize` call is made, no status is written and nothing is forwarded.
This holds for `admin.Admin` with both collaborators configured and for
`files.protected`, whatever its authorizer. -/
theorem gates_panic_on_empty_ID (an : Authenticator) (r : Request) (u : User)
    (hu : an.Authenticate r = some u) (hid : u.ID = []) :
    (∀ (a : Admin) (az : Authorizer), a.Authenticator = some an → a.Authorizer = some az →
      (a.ServeHTTP r).2 = ⟨[.authenticate r], some (.text "ID not set".toList)⟩) ∧
    (∀ p : Protected, p.authenticator = some an →
      p.ServeHTTP r = ⟨[.authenticate r], some (.text "ID not set".toList)⟩) := by
  constructor
  · intro a az han haz
    simp [Admin.ServeHTTP, han, haz, hu, User.Authorize, hid]
  · intro p han
    simp [Protected.ServeHTTP, han, hu, User.Authorize, hid]

/-- C20 on an admin gate and a protected file server whose authenticator
resolves identities with an empty ID. -/
theorem gates_panic_on_empty_ID_witness :
    blankAuthenticator.Authenticate ⟨GET, "/x".toList, []⟩ = some blankUser ∧
    blankUser.ID = [] ∧
    (blankAdmin.ServeHTTP ⟨GET, "/x".toList, []⟩).2 =
      ⟨[.authenticate ⟨GET, "/x".toList, []⟩], some (.text "ID not set".toList)⟩ ∧
    (someFiles.Protected (some allowAll) (some blankAuthenticator)).ServeHTTP
      ⟨GET, "/x".toList, []⟩ =
      ⟨[.authenticate ⟨GET, "/x".toList, []⟩], some (.text "ID not set".toList)⟩ :=
  ⟨rfl, rfl,
   (gates_panic_on_empty_ID blankAuthenticator ⟨GET, "/x".toList, []⟩ blankUser rfl rfl).1
     blankAdmin allowAll rfl rfl,
   (gates_panic_on_empty_ID blankAuthenticator ⟨GET, "/x".toList, []⟩ blankUser rfl rfl).2
     (someFiles.Protected (some allowAll) (some blankAuthenticator)) rfl⟩

/-! ## C21: the gate and unrecognized methods -/

theorem Method_GET_like (r : Request)
    (h : r.Method = GET ∨ r.Method ∉ [GET, POST, PUT, PATCH, DELETE]) : Method r = GET := by
  rcases h with h | h
  · simp [Method, h]
  · exact Method_other r h

theorem Admin.ServeHTTP_of_identity (a : Admin) (an : GoApp.Authenticator)
    (az : GoApp.Authorizer) (r : Request) (u : User) (han : a.Authenticator = some an)
    (haz : a.Authorizer = some az) (hu : an.Authenticate r = some u) (hid : u.ID ≠ []) :
    (a.ServeHTTP r).2 =
      ⟨[.authenticate r, .authorize ⟨Method r, r.Path⟩ u.ID,
        if az.Authorize ⟨Method r, r.Path⟩ u.ID = true then .forward r
        else .writeHeader 403], none⟩ := by
  cases h : az.Authorize ⟨Method r, r.Path⟩ u.ID
  · simp [Admin.ServeHTTP, han, haz, hu, User.Authorize, hid, h, StatusForbidden]
  · simp [Admin.ServeHTTP, han, haz, hu, User.Authorize, hid, h]

/-- C21: for an admin gate with both collaborators configured and two
requests with the same URL path whose methods are each GET or a string
outside the five, for which `Authenticate` resolves the same identity: both
requests have the EndPath with method GET and that path; when the identity has
an ID, each run asks the gate's authorizer about that EndPath and that ID and
then forwards its request or writes 403 according to the one answer; in every
case the two runs end in the same panic or in none, and one request is
forwarded if and only if the other is. -/
theorem Admin.same_decision_for_GET_like (a : Admin) (an : GoApp.Authenticator)
    (az : GoApp.Authorizer) (r1 r2 : Request) (u : User)
    (han : a.Authenticator = some an) (haz : a.Authorizer = some az)
    (hpath : r1.Path = r2.Path)
    (hm1 : r1.Method = GET ∨ r1.Method ∉ [GET, POST, PUT, PATCH, DELETE])
    (hm2 : r2.Method = GET ∨ r2.Method ∉ [GET, POST, PUT, PATCH, DELETE])
    (hu1 : an.Authenticate r1 = some u) (hu2 : an.Authenticate r2 = some u) :
    ((⟨Method r1, r1.Path⟩ : EndPath) = ⟨GET, r1.Path⟩ ∧
      (⟨Method r2, r2.Path⟩ : EndPath) = ⟨GET, r1.Path⟩) ∧
    (u.ID ≠ [] →
      (a.ServeHTTP r1).2 =
        ⟨[.authenticate r1, .authorize ⟨GET, r1.Path⟩ u.ID,
          if az.Authorize ⟨GET, r1.Path⟩ u.ID = true then .forward r1
          else .writeHeader 403], none⟩ ∧
      (a.ServeHTTP r2).2 =
        ⟨[.authenticate r2, .authorize ⟨GET, r1.Path⟩ u.ID,
          if az.Authorize ⟨GET, r1.Path⟩ u.ID = true then .forward r2
          else .writeHeader 403], none⟩) ∧
    (a.ServeHTTP r1).2.panic = (a.ServeHTTP r2).2.panic ∧
    (GCall.forward r1 ∈ (a.ServeHTTP r1).2.calls ↔
      GCall.forward r2 ∈ (a.ServeHTTP r2).2.calls) := by
  have e1 : Method r1 = GET := Method_GET_like r1 hm1
  have e2 : Method r2 = GET := Method_GET_like r2 hm2
  have hruns : u.ID ≠ [] →
      (a.ServeHTTP r1).2 =
        ⟨[.authenticate r1, .authorize ⟨GET, r1.Path⟩ u.ID,
          if az.Authorize ⟨GET, r1.Path⟩ u.ID = true then .forward r1
          else .writeHeader 403], none⟩ ∧
      (a.ServeHTTP r2).2 =
        ⟨[.authenticate r2, .authorize ⟨GET, r1.Path⟩ u.ID,
          if az.Authorize ⟨GET, r1.Path⟩ u.ID = true then .forward r2
          else .writeHeader 403], none⟩ := by
    intro hid
    have h1 := Admin.ServeHTTP_of_identity a an az r1 u han haz hu1 hid
    have h2 := Admin.ServeHTTP_of_identity a an az r2 u han haz hu2 hid
    rw [e1] at h1
    rw [e2, ← hpath] at h2
    exact ⟨h1, h2⟩
  refine ⟨⟨by rw [e1], by rw [e2, hpath]⟩, hruns, ?_, ?_⟩
  · by_cases hid : u.ID = []
    · simp [Admin.ServeHTTP, han, haz, hu1, hu2, User.Authorize, hid]
    · rw [(hruns hid).1, (hruns hid).2]
  · by_cases hid : u.ID = []
    · simp [Admin.ServeHTTP, han, haz, hu1, hu2, User.Authorize, hid]
    · rw [(hruns hid).1, (hruns hid).2]
      cases az.Authorize ⟨GET, r1.Path⟩ u.ID <;> simp

/-- C21 on the gate whose authorizer allows everything: a HEAD and a GET
request to `/x` are both checked as `EndPath{GET, "/x"}` and both forwarded. -/
theorem Admin.same_decision_for_GET_like_witness :
    (openAdmin.ServeHTTP ⟨"HEAD".toList, "/x".toList, []⟩).2 =
      ⟨[.authenticate ⟨"HEAD".toList, "/x".toList, []⟩,
        .authorize ⟨GET, "/x".toList⟩ "u1".toList,
        .forward ⟨"HEAD".toList, "/x".toList, []⟩], none⟩ ∧
    (openAdmin.ServeHTTP ⟨GET, "/x".toList, []⟩).2 =
      ⟨[.authenticate ⟨GET, "/x".toList, []⟩,
        .authorize ⟨GET, "/x".toList⟩ "u1".toList,
        .forward ⟨GET, "/x".toList, []⟩], none⟩ :=
  (Admin.same_decision_for_GET_like openAdmin knownAuthenticator allowAll
    ⟨"HEAD".toList, "/x".toList, []⟩ ⟨GET, "/x".toList, []⟩ knownUser rfl rfl rfl
    (Or.inr (by decide)) (Or.inl rfl) rfl rfl).2.1 (by decide)

end GoApp
